import Mathlib

/-!
Transcript viewer: grouping, rendering and navigation

A shallow embedding of `discobench-blog/dist/transcript-viewer.js`.

* JavaScript values decoded from the transcript are values of `JVal`.
* A thrown `TypeError` is the `Except.error` result of the function that throws.
* The module-level variables and the DOM properties the script writes are the
  fields of `Viewer`.
* Strings are sequences of characters; the regular expressions of the script
  only test characters of the Basic Multilingual Plane, so a character outside
  it behaves like the pair of code units it is in JavaScript.
-/

set_option maxRecDepth 100000

namespace TranscriptViewer

/-! ## JavaScript values -/

/-- A JavaScript value as produced by `JSON.parse`, plus `undefined`, which
property access produces.  Numbers are integers: the script only observes
whether a number is zero and its decimal rendering.  The field list of an object
holds its own properties; a key occurs in it at most once in what `JSON.parse`
builds, and lookup takes the first entry. -/
inductive JVal where
  | undefined : JVal
  | null : JVal
  | bool (b : Bool) : JVal
  | num (n : Int) : JVal
  | str (s : String) : JVal
  | arr (xs : List JVal) : JVal
  | obj (fields : List (String × JVal)) : JVal

/-- The ways a function of the script is left without a result: a `TypeError`
thrown on decoded data, or the iteration bound of a loop of this embedding
(`groupLoop_spec` shows that the bound of the grouping loop is never reached). -/
inductive JSError where
  | typeError : JSError
  | outOfFuel : JSError
  deriving DecidableEq, Repr

namespace JVal

/-- `v === undefined || v === null`: the values on which property access throws
and on which `?.` short-circuits. -/
def isNullish : JVal → Bool
  | undefined => true
  | null => true
  | _ => false

/-- JavaScript truthiness (`ToBoolean`). -/
def truthy : JVal → Bool
  | undefined => false
  | null => false
  | bool b => b
  | num n => n != 0
  | str s => s != ""
  | arr _ => true
  | obj _ => true

/-- `v === lit` for a string literal `lit`. -/
def isStr (v : JVal) (lit : String) : Bool :=
  match v with
  | str s => s == lit
  | _ => false

/-- `typeof v === 'string'`. -/
def isString : JVal → Bool
  | str _ => true
  | _ => false

/-- Own-property lookup in the field list of an object. -/
def lookup (key : String) : List (String × JVal) → JVal
  | [] => undefined
  | (k, v) :: rest => if k == key then v else lookup key rest

/-- The value of `v.key` (or `v[0]` for the key `"0"`) on a value that is not
nullish, for the keys the script reads (`message`, `role`, `type`, `content`,
`thinking`, `name`, `input`, `is_error`, `text`, `0`), none of which is found
on a built-in prototype.  An array has only its indices, a string only its
characters, numbers and booleans nothing. -/
def prop (v : JVal) (key : String) : JVal :=
  match v with
  | obj fields => lookup key fields
  | arr xs => if key == "0" then xs.headD undefined else undefined
  | str s =>
    if key == "0" then
      match s.data with
      | [] => undefined
      | c :: _ => str (String.mk [c])
    else undefined
  | _ => undefined

/-- Property access `v.key`: a `TypeError` on `undefined` and `null`. -/
def get (v : JVal) (key : String) : Except JSError JVal :=
  if v.isNullish then .error .typeError else .ok (v.prop key)

/-- Optional chaining `v?.key`. -/
def optGet (v : JVal) (key : String) : JVal :=
  if v.isNullish then undefined else v.prop key

end JVal

open JVal

/-! ## Grouping -/

/-- The expression `msg.message?.role`. -/
def roleOf (msg : JVal) : Except JSError JVal := do
  let m ← msg.get "message"
  pure (m.optGet "role")

/-- The inner `while` loop of `groupMessagesIntoSteps` (lines 80-87).  The first
argument is `allMessages.slice(i)`, the second is `currentTurn`; the result is
the finished turn and `allMessages.slice(i)` for the index at loop exit. -/
def absorbTurn : List JVal → List JVal → Except JSError (List JVal × List JVal)
  | [], turn => pure (turn, [])
  | m :: rest, turn => do
    let role ← roleOf m
    if role.isStr "user" then pure (turn, m :: rest)
    else do
      let type ← m.get "type"
      let role2 ← roleOf m
      if type.isStr "thinking" || type.isStr "tool_use" || type.isStr "tool_result"
          || role2.isStr "assistant" then
        absorbTurn rest (turn ++ [m])
      else
        absorbTurn rest turn

/-- The outer `while` loop of `groupMessagesIntoSteps` (lines 71-93): the list
argument is `allMessages.slice(i)`, `steps` the turns pushed so far.  The
result is the value of `steps` when the loop is left, and the exception that
left it, if one did.  Every iteration advances `i`, so `fuel` bounds the number
of iterations. -/
def groupLoop : Nat → List JVal → List (List JVal) → List (List JVal) × Option JSError
  | _, [], steps => (steps, none)
  | 0, _ :: _, steps => (steps, some .outOfFuel)
  | fuel + 1, msg :: rest, steps =>
    match roleOf msg with
    | .error e => (steps, some e)
    | .ok role =>
      if role.isStr "user" then
        match absorbTurn rest [msg] with
        | .error e => (steps, some e)
        | .ok (currentTurn, rest2) => groupLoop fuel rest2 (steps ++ [currentTurn])
      else
        groupLoop fuel rest steps

/-- The function `groupMessagesIntoSteps` applied to `allMessages`: the value of
`steps` at exit, and the exception thrown, if any. -/
def groupMessagesIntoSteps (allMessages : List JVal) : List (List JVal) × Option JSError :=
  groupLoop allMessages.length allMessages []

/-- The predicate of the loader's `filter` (line 44):
`msg && (msg.message || msg.type === 'tool_use' || msg.type === 'tool_result'
|| msg.type === 'thinking')`.  The properties are read only when `msg` is
truthy, hence not nullish. -/
def keepMessage (msg : JVal) : Bool :=
  msg.truthy && ((msg.prop "message").truthy || (msg.prop "type").isStr "tool_use"
    || (msg.prop "type").isStr "tool_result" || (msg.prop "type").isStr "thinking")

/-- Whether `msg.message?.role === 'user'` on a value that is not nullish. -/
def isUser (msg : JVal) : Bool :=
  ((msg.prop "message").optGet "role").isStr "user"

/-- The test of line 83 on a value that is not nullish. -/
def isAccepted (msg : JVal) : Bool :=
  (msg.prop "type").isStr "thinking" || (msg.prop "type").isStr "tool_use"
    || (msg.prop "type").isStr "tool_result"
    || ((msg.prop "message").optGet "role").isStr "assistant"

/-! ## The scenario of the specification, decoded -/

/-- The line `{"message":{"role":"user","content":"hi"}}`, decoded. -/
def scenarioHi : JVal :=
  .obj [("message", .obj [("role", .str "user"), ("content", .str "hi")])]

/-- The line `{"type":"thinking","message":{"content":[{"thinking":"pondering"}]}}`,
decoded. -/
def scenarioThinking : JVal :=
  .obj [("type", .str "thinking"),
    ("message", .obj [("content", .arr [.obj [("thinking", .str "pondering")]])])]

/-- The line
`{"message":{"role":"assistant","content":[{"type":"text","text":"**hello**"}]}}`,
decoded. -/
def scenarioHello : JVal :=
  .obj [("message", .obj [("role", .str "assistant"),
    ("content", .arr [.obj [("type", .str "text"), ("text", .str "**hello**")]])])]

/-- The line `{"message":{"role":"user","content":"bye"}}`, decoded. -/
def scenarioBye : JVal :=
  .obj [("message", .obj [("role", .str "user"), ("content", .str "bye")])]

/-- The four decoded lines of the scenario. -/
def scenario : List JVal := [scenarioHi, scenarioThinking, scenarioHello, scenarioBye]

/-- A decoded line `{"message":{"role":"system","content":"note"}}`: it has a
`message`, so the loader keeps it, and it is in none of the grouper's
categories. -/
def systemNote : JVal :=
  .obj [("message", .obj [("role", .str "system"), ("content", .str "note")])]

/-! ## Regular expressions

The constructs the script's regular expressions use, with the backtracking
semantics of ECMAScript: the matches of an expression at a position are listed
in the order in which the backtracking matcher would find them, so the match
`RegExp.prototype.exec` reports is the head of the list.  None of the
expressions uses an anchor, a look-around or a back-reference, so a match at a
position depends only on the input from that position on. -/

/-- The regular expressions of the script: the empty expression, a literal
character, a character class, concatenation, alternation `a|b`, a class under
`*` (greedy) or `*?` (lazy), and a capture group. -/
inductive Re where
  | eps : Re
  | chr (c : Char) : Re
  | set (p : Char → Bool) : Re
  | seq (a b : Re) : Re
  | alt (a b : Re) : Re
  | many (greedy : Bool) (p : Char → Bool) : Re
  | grp (i : Nat) (r : Re) : Re

/-- One way of matching: the matched text, the input after it, and the text of
each capture group (`[]` for a group that has not matched). -/
structure Match where
  text : List Char
  rest : List Char
  caps : Nat → List Char

/-- The ways of matching a starred class against the input, in backtracking
order: the greedy star tries the longest run first, the lazy star the
shortest. -/
def manyRuns (greedy : Bool) (p : Char → Bool) : List Char → List (List Char × List Char)
  | [] => [([], [])]
  | c :: t =>
    if p c then
      let more := (manyRuns greedy p t).map (fun r => (c :: r.1, r.2))
      if greedy then more ++ [([], c :: t)] else ([], c :: t) :: more
    else [([], c :: t)]

/-- All the ways of matching `r` at the start of the input, in backtracking
order, starting from the captures `caps`. -/
def Re.matches : Re → List Char → (Nat → List Char) → List Match
  | .eps, s, caps => [⟨[], s, caps⟩]
  | .chr c, s, caps =>
    match s with
    | x :: t => if x = c then [⟨[x], t, caps⟩] else []
    | [] => []
  | .set p, s, caps =>
    match s with
    | x :: t => if p x then [⟨[x], t, caps⟩] else []
    | [] => []
  | .seq a b, s, caps =>
    (a.matches s caps).flatMap (fun m1 =>
      (b.matches m1.rest m1.caps).map (fun m2 => ⟨m1.text ++ m2.text, m2.rest, m2.caps⟩))
  | .alt a b, s, caps => a.matches s caps ++ b.matches s caps
  | .many greedy p, s, caps => (manyRuns greedy p s).map (fun r => ⟨r.1, r.2, caps⟩)
  | .grp i r, s, caps =>
    (r.matches s caps).map (fun m =>
      ⟨m.text, m.rest, fun j => if j = i then m.text else m.caps j⟩)

/-- The expression matching the characters of `s` in sequence. -/
def Re.lit : List Char → Re
  | [] => .eps
  | c :: t => .seq (.chr c) (Re.lit t)

/-- The alternation of literal strings `s1|s2|...`. -/
def Re.alts : List String → Re
  | [] => .set (fun _ => false)
  | [s] => Re.lit s.data
  | s :: t => .alt (Re.lit s.data) (Re.alts t)

/-- The match reported by `exec` at the start of the input. -/
def Re.exec (r : Re) (s : List Char) : Option Match :=
  (r.matches s (fun _ => [])).head?

/-- The loop of `String.prototype.replace` for a global expression, on the input
from the current `lastIndex` on: a non-empty match is replaced and the scan
resumes after it; otherwise one character is copied (after the replacement of
an empty match, if there is one).  Every iteration but the last advances, so
`fuel` bounds the iterations. -/
def replaceLoop (r : Re) (f : Match → List Char) : Nat → List Char → List Char
  | 0, s => s
  | fuel + 1, s =>
    match r.exec s with
    | some m =>
      match m.text with
      | _ :: _ => f m ++ replaceLoop r f fuel m.rest
      | [] =>
        match s with
        | [] => f m
        | c :: t => f m ++ c :: replaceLoop r f fuel t
    | none =>
      match s with
      | [] => []
      | c :: t => c :: replaceLoop r f fuel t

/-- The call `s.replace(r, f)` for a global expression `r`: `f` gives the
replacement of a match (a replacer function, or a replacement pattern such as
`'<strong>$1</strong>'` with its `$1` filled in). -/
def jsReplace (r : Re) (f : Match → String) (s : String) : String :=
  String.mk (replaceLoop r (fun m => (f m).data) (s.data.length + 1) s.data)

/-- The line terminators, which `.` does not match without the `s` flag. -/
def isLineTerminator (c : Char) : Bool :=
  c = '\n' || c = '\r' || c = Char.ofNat 0x2028 || c = Char.ofNat 0x2029

/-! ## Escaping -/

/-- The class `[&<>"']`. -/
def isSpecial (c : Char) : Bool :=
  c = '&' || c = '<' || c = '>' || c = Char.ofNat 34 || c = Char.ofNat 39

/-- The object literal of `escapeHTML`, as a table. -/
def entityTable : List (String × String) :=
  [("&", "&amp;"), ("<", "&lt;"), (">", "&gt;"), ("\"", "&quot;"), ("'", "&#39;")]

/-- The replacer of `escapeHTML`: the entry of the table for the matched text
(`undefined`, rendered by `replace` as the text `undefined`, if there is none). -/
def entityOf (m : Match) : String :=
  (entityTable.lookup (String.mk m.text)).getD "undefined"

/-- The function `escapeHTML`. -/
def escapeHTML (str : JVal) : String :=
  match str with
  | .str s => jsReplace (.set isSpecial) entityOf s
  | _ => ""

/-- The entity of one character, or the character itself. -/
def escapeChar (c : Char) : List Char :=
  if c = '&' then "&amp;".data
  else if c = '<' then "&lt;".data
  else if c = '>' then "&gt;".data
  else if c = Char.ofNat 34 then "&quot;".data
  else if c = Char.ofNat 39 then "&#39;".data
  else [c]

/-! ## Conversion to string -/

/-- Whether the object has an own property `key`. -/
def hasKey (key : String) : List (String × JVal) → Bool
  | [] => false
  | (k, _) :: rest => k == key || hasKey key rest

mutual
/-- The conversion `String(v)` (also that of `${v}` in a template literal).
An array is its elements joined by commas; an object is `[object Object]`,
unless it has an own property `toString`, which a decoded object cannot call, so
that the conversion throws.  A number is printed in decimal, which is what
JavaScript prints for an integer of absolute value below `1e21`; no theorem
below evaluates the conversion at a number. -/
def jsString : JVal → Except JSError String
  | .undefined => pure "undefined"
  | .null => pure "null"
  | .bool b => pure (if b then "true" else "false")
  | .num n => pure (toString n)
  | .str s => pure s
  | .arr xs => jsJoin xs
  | .obj fields => if hasKey "toString" fields then .error .typeError else pure "[object Object]"
/-- The call `xs.join(',')`: `undefined` and `null` elements are empty. -/
def jsJoin : List JVal → Except JSError String
  | [] => pure ""
  | [x] => if x.isNullish then pure "" else jsString x
  | x :: y :: rest => do
    let a ← if x.isNullish then pure "" else jsString x
    let b ← jsJoin (y :: rest)
    pure (a ++ "," ++ b)
end

/-! ## Card templates -/

/-- The function `createUserCard`. -/
def createUserCard (content : JVal) : Except JSError String := do
  let text ← jsString content
  pure ("\n    <div class=\"chat-message user-message\">\n      <div class=\"d-flex align-items-center mb-2\">\n        <i class=\"bi bi-person-fill me-2\" style=\"font-size: 1.2rem;\"></i>\n        <strong class=\"fs-6\">User</strong>\n      </div>\n      <pre style=\"white-space: pre-wrap; word-wrap: break-word; margin: 0; font-family: var(--font-monospace); font-size: 0.9rem;\"><code>"
    ++ escapeHTML (.str text) ++ "</code></pre>\n    </div>")

/-- The function `createCollapsedCard`; the callers that omit `lang` and
`isError` pass the defaults `'plaintext'` and `false`. -/
def createCollapsedCard (title : String) (content : JVal) (lang : String) (isError : JVal) :
    Except JSError String := do
  let errorClass := if isError.truthy then "is-error" else ""
  let text ← jsString content
  pure ("\n    <div class=\"collapsed-message " ++ errorClass
    ++ "\">\n      <details>\n        <summary>" ++ escapeHTML (.str title)
    ++ "</summary>\n        <div class=\"tool-result " ++ errorClass
    ++ "\">\n          <pre><code class=\"language-" ++ lang ++ "\">"
    ++ escapeHTML (.str text)
    ++ "</code></pre>\n        </div>\n      </details>\n    </div>")

/-! ## The markdown substitutions of `createAssistantCard` -/

/-- The class `.` without the `s` flag. -/
def dot (c : Char) : Bool := !isLineTerminator c

/-- The classes `[\s\S]` and `.` with the `s` flag. -/
def anyChar (_ : Char) : Bool := true

/-- The class of characters other than the backtick. -/
def notBacktick (c : Char) : Bool := c != Char.ofNat 96

/-- The expression of line 153:
three backticks, `(javascript|js|python|html|css|json|bash|sh|)(\n?)([\s\S]*?)`,
three backticks. -/
def reFence : Re :=
  .seq (Re.lit "```".data)
    (.seq (.grp 1 (Re.alts ["javascript", "js", "python", "html", "css", "json", "bash", "sh", ""]))
      (.seq (.grp 2 (.alt (.chr '\n') .eps))
        (.seq (.grp 3 (.many false anyChar)) (Re.lit "```".data))))

/-- The replacer of line 153-156. -/
def fenceReplacer (m : Match) : String :=
  let lang := String.mk (m.caps 1)
  let code := String.mk (m.caps 3)
  let language := if lang != "" then lang else "plaintext"
  "</p><pre class=\"bg-dark text-white p-3 rounded\" style=\"font-family: var(--font-monospace);\"><code class=\"language-"
    ++ language ++ "\">" ++ code ++ "</code></pre><p>"

/-- The expression `/\*\*(.*?)\*\*/g`. -/
def reBold : Re := .seq (Re.lit "**".data) (.seq (.grp 1 (.many false dot)) (Re.lit "**".data))

/-- The expression `/\*(.*?)\*/g`. -/
def reItalic : Re := .seq (.chr '*') (.seq (.grp 1 (.many false dot)) (.chr '*'))

/-- The expression of line 159: a backtick, one or more characters other than
the backtick (group 1), a backtick. -/
def reInlineCode : Re :=
  .seq (.chr (Char.ofNat 96))
    (.seq (.grp 1 (.seq (.set notBacktick) (.many true notBacktick))) (.chr (Char.ofNat 96)))

/-- The expression `/(\n- (.*))/g`. -/
def reBullet : Re := .grp 1 (.seq (Re.lit "\n- ".data) (.grp 2 (.many true dot)))

/-- The expression `/(<li>.*<\/li\>)/gs`. -/
def reListRun : Re :=
  .grp 1 (.seq (Re.lit "<li>".data) (.seq (.many true anyChar) (Re.lit "</li>".data)))

/-- The chain of substitutions of lines 152-165, on any value of `text`. -/
def markdownToHtml (text : JVal) : String :=
  let s0 := escapeHTML text
  let s1 := jsReplace reFence fenceReplacer s0
  let s2 := jsReplace reBold (fun m => "<strong>" ++ String.mk (m.caps 1) ++ "</strong>") s1
  let s3 := jsReplace reItalic (fun m => "<em>" ++ String.mk (m.caps 1) ++ "</em>") s2
  let s4 := jsReplace reInlineCode (fun m =>
    "<code style=\"background-color: #e9ecef; padding: .2em .4em; border-radius: .25rem;\">"
      ++ String.mk (m.caps 1) ++ "</code>") s3
  let s5 := jsReplace reBullet (fun m => "<li>" ++ String.mk (m.caps 2) ++ "</li>") s4
  let s6 := jsReplace reListRun (fun m =>
    "<ul style=\"padding-left: 1.2rem; margin-top: 0.5rem; margin-bottom: 0.5rem;\">"
      ++ String.mk m.text ++ "</ul>") s5
  let s7 := jsReplace (Re.lit "</ul>\n".data) (fun _ => "</ul>") s6
  let s8 := jsReplace (.chr '\n') (fun _ => "<br>") s7
  let s9 := jsReplace (Re.lit "<br><br>".data) (fun _ => "</p><p>") s8
  jsReplace (Re.lit "</ul><br>".data) (fun _ => "</ul>") s9

/-- The function `createAssistantCard`. -/
def createAssistantCard (text : JVal) : String :=
  "\n    <div class=\"chat-message assistant-message\">\n      <div class=\"d-flex align-items-center mb-2\">\n        <i class=\"bi bi-robot me-2\" style=\"font-size: 1.2rem; color: #0d6efd;\"></i>\n        <strong class=\"fs-6\" style=\"color: #0d6efd;\">Assistant</strong>\n      </div>\n      <p style=\"white-space: pre-wrap; word-wrap: break-word; margin-bottom: 0;\">"
    ++ markdownToHtml text ++ "</p>\n    </div>"

/-! ## Rendering one event -/

/-- The built-in functions the script calls whose results it only passes on:
`JSON.parse` (`none` when it throws), `JSON.stringify(v, null, 2)`, and the
`message` of the error object of an exception. -/
structure Platform where
  jsonParse : String → Option JVal
  jsonStringify : JVal → String
  errorMessage : JSError → String

/-- The loop of `Array.prototype.find` with the callback `p => p.type === 'text'`. -/
def findTextLoop : List JVal → Except JSError JVal
  | [] => pure .undefined
  | p :: rest => do
    let type ← p.get "type"
    if type.isStr "text" then pure p else findTextLoop rest

/-- The call `content.find(p => p.type === 'text')`: only an array has a
callable `find`. -/
def findTextPart (content : JVal) : Except JSError JVal :=
  match content with
  | .arr xs => findTextLoop xs
  | _ => .error .typeError

/-- The function `createCardHtml`. -/
def createCardHtml (P : Platform) (msg : JVal) : Except JSError String := do
  let message ← msg.get "message"
  let role := message.optGet "role"
  let type ← msg.get "type"
  let content := message.optGet "content"
  if role.isStr "user" && content.truthy then
    createUserCard content
  else if role.isStr "assistant" then do
    let textPart ← findTextPart content
    if textPart.truthy then do
      let text ← textPart.get "text"
      pure (createAssistantCard text)
    else pure ""
  else if type.isStr "thinking" then do
    let first := ((message.optGet "content").optGet "0").optGet "thinking"
    let thinkingText :=
      if first.truthy then first
      else if content.isString then content else .str "Thinking..."
    createCollapsedCard "💭 Thinking..." thinkingText "plaintext" (.bool false)
  else if type.isStr "tool_use" then do
    let content2 ← message.get "content"
    let toolCall ← content2.get "0"
    let name ← toolCall.get "name"
    let nameText ← jsString name
    let input ← toolCall.get "input"
    createCollapsedCard ("🛠️ Tool Use: " ++ nameText)
      (.str (if input.truthy then P.jsonStringify input else "")) "json" (.bool false)
  else if type.isStr "tool_result" then do
    let content2 ← message.get "content"
    let toolResult ← content2.get "0"
    let flag ← toolResult.get "is_error"
    let isError := if flag.truthy then flag else .bool false
    let title := if isError.truthy then "🧰 Tool Error" else "🧰 Tool Result"
    let body ← toolResult.get "content"
    createCollapsedCard title body "bash" isError
  else pure ""

/-! ## Viewer state and navigation -/

/-- The properties of the page elements that the script writes:
`contentEl.innerHTML`, `counterEl.textContent`, `prevBtn.disabled`,
`nextBtn.disabled`, `loadingEl.style.display` and `container.style.opacity`. -/
structure Dom where
  contentHtml : String
  counterText : String
  prevDisabled : Bool
  nextDisabled : Bool
  loadingDisplay : String
  containerOpacity : String
  deriving DecidableEq

/-- The module-level variables `allMessages`, `steps`, `currentStep`, and the
page.  The optional call of `Prism.highlightAllUnder` and the scrolling of
`navigate` are not part of the state. -/
structure Viewer where
  allMessages : List JVal
  steps : List (List JVal)
  currentStep : Int
  dom : Dom

/-- The state when the script starts, on a page with the properties `dom`
(lines 24-26). -/
def Viewer.initial (dom : Dom) : Viewer :=
  { allMessages := [], steps := [], currentStep := -1, dom := dom }

/-- The state in which a handler is left, and the exception that left it, if
one did. -/
structure Outcome where
  state : Viewer
  thrown : Option JSError

/-- The function `renderStep`: nothing is written before an exception of
`createCardHtml` leaves it. -/
def renderStep (P : Platform) (v : Viewer) (index : Int) : Except JSError Viewer :=
  if index < 0 || index ≥ (v.steps.length : Int) then pure v
  else do
    let stepMessages := v.steps.getD index.toNat []
    let cards ← stepMessages.mapM (createCardHtml P)
    pure { v with dom := { v.dom with contentHtml := String.join cards } }

/-- The function `updateNavState`. -/
def updateNavState (v : Viewer) : Viewer :=
  { v with dom := { v.dom with
      counterText := "Turn " ++ toString (v.currentStep + 1) ++ " of " ++ toString v.steps.length
      prevDisabled := decide (v.currentStep ≤ 0)
      nextDisabled := decide (v.currentStep ≥ (v.steps.length : Int) - 1) } }

/-- The function `navigate`. -/
def navigate (P : Platform) (direction : Int) (v : Viewer) : Outcome :=
  let newStep := v.currentStep + direction
  if newStep ≥ 0 && newStep < (v.steps.length : Int) then
    let v1 := { v with currentStep := newStep }
    match renderStep P v1 v1.currentStep with
    | .error e => ⟨v1, some e⟩
    | .ok v2 => ⟨updateNavState v2, none⟩
  else ⟨v, none⟩

/-- A click on one of the two buttons. -/
inductive Request where
  | next : Request
  | previous : Request
  deriving DecidableEq

/-- The listeners of lines 31-32. -/
def Request.direction : Request → Int
  | .next => 1
  | .previous => -1

/-- The state after a sequence of clicks; an exception ends the handler of one
click and leaves the state for the next. -/
def runRequests (P : Platform) : List Request → Viewer → Viewer
  | [], v => v
  | r :: rest, v => runRequests P rest (navigate P r.direction v).state

/-! ## Loading -/

/-- The white space and line terminators that `String.prototype.trim` strips. -/
def isJsSpace (c : Char) : Bool :=
  let n := c.toNat
  n = 9 || n = 10 || n = 11 || n = 12 || n = 13 || n = 32 || n = 0xA0 || n = 0x1680
    || (0x2000 ≤ n && n ≤ 0x200A) || n = 0x2028 || n = 0x2029 || n = 0x202F
    || n = 0x205F || n = 0x3000 || n = 0xFEFF

/-- The call `text.trim()`. -/
def jsTrim (text : List Char) : List Char :=
  ((text.dropWhile isJsSpace).reverse.dropWhile isJsSpace).reverse

/-- The call `text.split('\n')`. -/
def splitLines : List Char → List (List Char)
  | [] => [[]]
  | c :: t =>
    if c = '\n' then [] :: splitLines t
    else
      match splitLines t with
      | [] => [[c]]
      | line :: lines => (c :: line) :: lines

/-- What `fetch` and `response.text()` give: a rejection with an error message,
a response whose `ok` is false with its status, or the text of the file. -/
inductive Fetched where
  | failed (message : String) : Fetched
  | status (code : Nat) : Fetched
  | body (text : String) : Fetched

/-- The list assigned to `allMessages` (lines 42-44); a line on which
`JSON.parse` throws is mapped to `null`. -/
def loadMessages (P : Platform) (text : String) : List JVal :=
  ((splitLines (jsTrim text.data)).map
    (fun line => (P.jsonParse (String.mk line)).getD .null)).filter keepMessage

/-- The `catch` block of `init` (lines 58-63) for an error with the given
`message`. -/
def showLoadError (v : Viewer) (message : String) : Viewer :=
  { v with dom := { v.dom with
      contentHtml := "<div class=\"alert alert-danger\"><strong>Error:</strong> Could not load transcript.<br><small>"
        ++ escapeHTML (.str message) ++ "</small></div>"
      loadingDisplay := "none"
      containerOpacity := "1" } }

/-- The function `init`, from the state `v`, given what `fetch` gives. -/
def init (P : Platform) (fetched : Fetched) (v : Viewer) : Viewer :=
  match fetched with
  | .failed message => showLoadError v message
  | .status code =>
    showLoadError v ("HTTP error! Status: " ++ toString code
      ++ " - Check that the file path \"claude.jsonl\" is correct.")
  | .body text =>
    let v1 := { v with allMessages := loadMessages P text }
    match groupMessagesIntoSteps v1.allMessages with
    | (steps, some e) => showLoadError { v1 with steps := steps } (P.errorMessage e)
    | (steps, none) =>
      let v2 := { v1 with steps := steps }
      if v2.steps.length > 0 then
        let v3 := { v2 with currentStep := 0 }
        match renderStep P v3 v3.currentStep with
        | .error e => showLoadError v3 (P.errorMessage e)
        | .ok v4 =>
          let v5 := updateNavState v4
          { v5 with dom := { v5.dom with loadingDisplay := "none", containerOpacity := "1" } }
      else
        { v2 with dom := { v2.dom with
            counterText := "No steps found in file."
            loadingDisplay := "none" } }

/-! ## Tags of the rendered fragments -/

/-- The element names of the tags that the template of `createAssistantCard` and
its substitution rules emit. -/
def tagNames : List String :=
  ["p", "pre", "code", "strong", "em", "li", "ul", "br", "div", "i"]

/-- The ways a tag of the element `name` begins: `<name>`, `<name ` (attributes
follow) and `</name>`. -/
def openersOf (name : String) : List (List Char) :=
  [("<" ++ name ++ ">").data, ("<" ++ name ++ " ").data, ("</" ++ name ++ ">").data]

/-- The beginnings of the tags of the elements of `tagNames`. -/
def tagOpeners : List (List Char) := tagNames.flatMap openersOf

/-- The beginnings of the tags of all the card templates: those of `tagOpeners`
and the `details` and `summary` elements of `createCollapsedCard`. -/
def cardOpeners : List (List Char) :=
  tagOpeners ++ openersOf "details" ++ openersOf "summary"

/-- Whether the text begins with one of the given tag beginnings. -/
def startsTag (openers : List (List Char)) (l : List Char) : Bool :=
  openers.any (fun o => o.isPrefixOf l)

/-- Whether every `<` of the text begins one of the given tag beginnings. -/
def tagSafe (openers : List (List Char)) : List Char → Bool
  | [] => true
  | c :: t => (c != '<' || startsTag openers (c :: t)) && tagSafe openers t

/-- The characters that occur in the tag beginnings of `tagOpeners` after the
`<`. -/
def tagInnerChars : List Char := "/> abcdefghijklmnopqrstuvwxyz".data

/-! ## Examples -/

/-- A platform for the examples: its `JSON.parse` decodes the four lines of the
scenario and throws on every other text, which is what `JSON.parse` does on the
empty text and on `not json`, the only other lines of the examples.  The
examples have no `tool_use` event, so they never call `JSON.stringify`. -/
def examplePlatform : Platform where
  jsonParse := fun line =>
    if line = "\x7b\"message\":\x7b\"role\":\"user\",\"content\":\"hi\"\x7d\x7d" then
      some scenarioHi
    else if line = "\x7b\"type\":\"thinking\",\"message\":\x7b\"content\":[\x7b\"thinking\":\"pondering\"\x7d]\x7d\x7d" then
      some scenarioThinking
    else if line = "\x7b\"message\":\x7b\"role\":\"assistant\",\"content\":[\x7b\"type\":\"text\",\"text\":\"**hello**\"\x7d]\x7d\x7d" then
      some scenarioHello
    else if line = "\x7b\"message\":\x7b\"role\":\"user\",\"content\":\"bye\"\x7d\x7d" then
      some scenarioBye
    else none
  jsonStringify := fun _ => ""
  errorMessage := fun _ => "TypeError"

/-- The text of the transcript of the scenario. -/
def scenarioText : String :=
  "\x7b\"message\":\x7b\"role\":\"user\",\"content\":\"hi\"\x7d\x7d\n\x7b\"type\":\"thinking\",\"message\":\x7b\"content\":[\x7b\"thinking\":\"pondering\"\x7d]\x7d\x7d\n\x7b\"message\":\x7b\"role\":\"assistant\",\"content\":[\x7b\"type\":\"text\",\"text\":\"**hello**\"\x7d]\x7d\x7d\n\x7b\"message\":\x7b\"role\":\"user\",\"content\":\"bye\"\x7d\x7d"

/-- A page whose buttons have no `disabled` attribute, before the script
runs. -/
def examplePage : Dom :=
  { contentHtml := "", counterText := "", prevDisabled := false, nextDisabled := false,
    loadingDisplay := "", containerOpacity := "0" }

/-- A decoded line `{"type":"tool_use"}`: the loader's filter keeps it for its
type, and it has no `message`. -/
def bareToolUse : JVal := .obj [("type", .str "tool_use")]

/-- The cursor is `-1` on an empty turn list and an index of the turn list
otherwise. -/
def cursorOk (v : Viewer) : Prop :=
  (v.steps = [] ∧ v.currentStep = -1)
    ∨ (0 ≤ v.currentStep ∧ v.currentStep ≤ (v.steps.length : Int) - 1)

/-- What `updateNavState` shows for the cursor: `previous` is disabled exactly
at the first turn, `next` exactly at the last, and the counter reads
`Turn c+1 of N`. -/
def navShown (v : Viewer) : Prop :=
  v.dom.prevDisabled = decide (v.currentStep = 0)
    ∧ v.dom.nextDisabled = decide (v.currentStep = (v.steps.length : Int) - 1)
    ∧ v.dom.counterText
        = "Turn " ++ toString (v.currentStep + 1) ++ " of " ++ toString v.steps.length

/-- A decoded line `{"type":"thinking"}`. -/
def bareThinking : JVal := .obj [("type", .str "thinking")]

/-! ## The turns in closed form -/

/-- The turns of an event list without nullish entries, in closed form: every
user event begins a turn, which goes on with the accepted events among those up
to the next user event.  `groupLoop_turnsOf` shows that this is what the loops
of `groupMessagesIntoSteps` compute. -/
def turnsOf : List JVal → List (List JVal)
  | [] => []
  | m :: rest =>
    if isUser m then
      (m :: (rest.takeWhile (fun x => !isUser x)).filter isAccepted) :: turnsOf rest
    else turnsOf rest

/-- A decoded line `{"message":{"role":"user","content":""}}`: a user event with
empty content. -/
def emptyUser : JVal :=
  .obj [("message", .obj [("role", .str "user"), ("content", .str "")])]

/-- A decoded line `{"type":"thinking","message":{"content":[{"text":"x"}]}}`: a
thinking event whose first content part carries no thinking text and whose
content is not a string. -/
def thinkingWithoutText : JVal :=
  .obj [("type", .str "thinking"),
    ("message", .obj [("content", .arr [.obj [("text", .str "x")]])])]

/-- A decoded line
`{"type":"tool_result","message":{"role":"user","content":"done"}}`: a user
event that also has the type `tool_result`. -/
def userToolResult : JVal :=
  .obj [("type", .str "tool_result"),
    ("message", .obj [("role", .str "user"), ("content", .str "done")])]

/-- A decoded line
`{"type":"tool_result","message":{"content":[{"is_error":true,"content":"<no such file>"}]}}`. -/
def failedToolResult : JVal :=
  .obj [("type", .str "tool_result"),
    ("message", .obj [("content",
      .arr [.obj [("is_error", .bool true), ("content", .str "<no such file>")]])])]

/-- A platform for the example of a turn that cannot be rendered: its
`JSON.parse` decodes the line `{"type":"tool_use"}` and otherwise does what that
of `examplePlatform` does. -/
def toolUsePlatform : Platform :=
  { examplePlatform with
    jsonParse := fun line =>
      if line = "\x7b\"type\":\"tool_use\"\x7d" then some bareToolUse
      else examplePlatform.jsonParse line }

/-- A transcript of three lines: the user line `hi`, the line
`{"type":"tool_use"}`, and the user line `bye`.  Its first turn cannot be
rendered. -/
def toolUseText : String :=
  "\x7b\"message\":\x7b\"role\":\"user\",\"content\":\"hi\"\x7d\x7d\n\x7b\"type\":\"tool_use\"\x7d\n\x7b\"message\":\x7b\"role\":\"user\",\"content\":\"bye\"\x7d\x7d"

/-! # Theorems -/

/-! ## Grouping: lemmas -/

theorem roleOf_ok (m : JVal) (h : m.isNullish = false) :
    roleOf m = .ok ((m.prop "message").optGet "role") := by
  simp [roleOf, JVal.get, h, bind, Except.bind, pure, Except.pure]

theorem get_ok (m : JVal) (key : String) (h : m.isNullish = false) :
    m.get key = .ok (m.prop key) := by
  simp [JVal.get, h]

theorem absorbTurn_eq (rest : List JVal) :
    ∀ turn : List JVal, (∀ m ∈ rest, m.isNullish = false) →
      absorbTurn rest turn = .ok
        (turn ++ (rest.takeWhile (fun m => !isUser m)).filter isAccepted,
          rest.dropWhile (fun m => !isUser m)) := by
  induction rest with
  | nil => intro turn _; simp [absorbTurn, pure, Except.pure]
  | cons m rest ih =>
    intro turn h
    have hm : m.isNullish = false := h m (List.mem_cons_self _ _)
    have hrest : ∀ x ∈ rest, x.isNullish = false :=
      fun x hx => h x (List.mem_cons_of_mem _ hx)
    rw [absorbTurn, roleOf_ok m hm, get_ok m "type" hm]
    by_cases hu : isUser m = true
    · have hu2 : ((m.prop "message").optGet "role").isStr "user" = true := hu
      simp [bind, Except.bind, pure, Except.pure, hu2, hu]
    · have hu2 : ((m.prop "message").optGet "role").isStr "user" = false := by
        simpa [isUser] using hu
      have hu3 : isUser m = false := by simpa using hu
      by_cases ha : isAccepted m = true
      · have ha2 : ((m.prop "type").isStr "thinking" || (m.prop "type").isStr "tool_use"
            || (m.prop "type").isStr "tool_result"
            || ((m.prop "message").optGet "role").isStr "assistant") = true := ha
        simp only [bind, Except.bind, hu2, ha2, if_true]
        simp [ih (turn ++ [m]) hrest, hu3, ha]
      · have ha3 : isAccepted m = false := by simpa using ha
        have ha2 : ((m.prop "type").isStr "thinking" || (m.prop "type").isStr "tool_use"
            || (m.prop "type").isStr "tool_result"
            || ((m.prop "message").optGet "role").isStr "assistant") = false := ha3
        simp only [bind, Except.bind, hu2, ha2]
        simp [ih turn hrest, hu3, ha3]

theorem dropWhile_notUser_idem (l : List JVal) :
    (l.dropWhile (fun m => !isUser m)).dropWhile (fun m => !isUser m)
      = l.dropWhile (fun m => !isUser m) := by
  induction l with
  | nil => rfl
  | cons a l ih =>
    by_cases h : isUser a = true
    · simp [List.dropWhile, h]
    · have h2 : isUser a = false := by simpa using h
      simpa [List.dropWhile, h2] using ih

theorem filter_takeWhile_notUser (l : List JVal) :
    (l.takeWhile (fun m => !isUser m)).filter (fun m => isUser m || isAccepted m)
      = (l.takeWhile (fun m => !isUser m)).filter isAccepted := by
  apply List.filter_congr
  intro x hx
  have := List.mem_takeWhile_imp hx
  simp at this
  simp [this]

theorem countP_takeWhile_notUser (l : List JVal) :
    (l.takeWhile (fun m => !isUser m)).countP isUser = 0 := by
  rw [List.countP_eq_zero]
  intro x hx
  have := List.mem_takeWhile_imp hx
  simpa using this

/-- What the outer loop computes on a list without nullish entries, given
enough fuel. -/
theorem groupLoop_spec : ∀ (fuel : Nat) (msgs : List JVal) (steps : List (List JVal)),
    msgs.length ≤ fuel → (∀ m ∈ msgs, m.isNullish = false) →
    ∃ turns, groupLoop fuel msgs steps = (steps ++ turns, none)
      ∧ turns.flatten = (msgs.dropWhile (fun m => !isUser m)).filter
          (fun m => isUser m || isAccepted m)
      ∧ turns.length = msgs.countP isUser
      ∧ ∀ t ∈ turns, ∃ u tl, t = u :: tl ∧ isUser u = true ∧ u ∈ msgs
          ∧ ∀ x ∈ tl, isUser x = false ∧ isAccepted x = true ∧ x ∈ msgs := by
  intro fuel
  induction fuel with
  | zero =>
    intro msgs steps hlen _
    have : msgs = [] := List.length_eq_zero.mp (Nat.le_zero.mp hlen)
    subst this
    exact ⟨[], by simp [groupLoop]⟩
  | succ fuel ih =>
    intro msgs steps hlen hnn
    cases msgs with
    | nil => exact ⟨[], by simp [groupLoop]⟩
    | cons msg rest =>
      have hm : msg.isNullish = false := hnn msg (List.mem_cons_self _ _)
      have hrest : ∀ x ∈ rest, x.isNullish = false :=
        fun x hx => hnn x (List.mem_cons_of_mem _ hx)
      have hlen2 : rest.length ≤ fuel := by simpa using hlen
      rw [groupLoop, roleOf_ok msg hm]
      by_cases hu : isUser msg = true
      · have hu2 : ((msg.prop "message").optGet "role").isStr "user" = true := hu
        have hd : (rest.dropWhile (fun m => !isUser m)).length ≤ fuel :=
          le_trans ((List.dropWhile_sublist _).length_le) hlen2
        have hdn : ∀ x ∈ rest.dropWhile (fun m => !isUser m), x.isNullish = false :=
          fun x hx => hrest x ((List.dropWhile_sublist _).subset hx)
        obtain ⟨turns, h1, h2, h3, h4⟩ := ih (rest.dropWhile (fun m => !isUser m))
          (steps ++ [[msg] ++ (rest.takeWhile (fun m => !isUser m)).filter isAccepted]) hd hdn
        refine ⟨(msg :: (rest.takeWhile (fun m => !isUser m)).filter isAccepted) :: turns,
          ?_, ?_, ?_, ?_⟩
        · simp only [hu2, if_true, absorbTurn_eq rest [msg] hrest]
          simpa using h1
        · rw [List.flatten_cons, h2, dropWhile_notUser_idem]
          simp only [List.dropWhile, hu, Bool.not_true]
          rw [List.filter_cons]
          simp only [hu, Bool.true_or, if_true, List.cons_append]
          congr 1
          rw [← filter_takeWhile_notUser, ← List.filter_append,
            List.takeWhile_append_dropWhile]
        · rw [List.length_cons, h3, List.countP_cons]
          simp only [hu, if_true]
          conv_rhs => rw [← List.takeWhile_append_dropWhile (fun m => !isUser m) rest]
          rw [List.countP_append, countP_takeWhile_notUser]
          omega
        · intro t ht
          rcases List.mem_cons.mp ht with rfl | ht
          · refine ⟨msg, _, rfl, hu, List.mem_cons_self _ _, ?_⟩
            intro x hx
            have hx1 := List.mem_filter.mp hx
            have hx2 := List.mem_takeWhile_imp hx1.1
            refine ⟨by simpa using hx2, hx1.2, ?_⟩
            exact List.mem_cons_of_mem _ ((List.takeWhile_sublist _).subset hx1.1)
          · obtain ⟨u, tl, e, hu', hmem, hall⟩ := h4 t ht
            refine ⟨u, tl, e, hu', ?_, ?_⟩
            · exact List.mem_cons_of_mem _ ((List.dropWhile_sublist _).subset hmem)
            · intro x hx
              obtain ⟨a, b, c⟩ := hall x hx
              exact ⟨a, b, List.mem_cons_of_mem _ ((List.dropWhile_sublist _).subset c)⟩
      · have hu3 : isUser msg = false := by simpa using hu
        have hu2 : ((msg.prop "message").optGet "role").isStr "user" = false := hu3
        obtain ⟨turns, h1, h2, h3, h4⟩ := ih rest steps hlen2 hrest
        refine ⟨turns, ?_, ?_, ?_, ?_⟩
        · simp only [hu2]
          simpa using h1
        · rw [h2]; simp [List.dropWhile, hu3]
        · rw [h3, List.countP_cons]; simp [hu3]
        · intro t ht
          obtain ⟨u, tl, e, hu', hmem, hall⟩ := h4 t ht
          refine ⟨u, tl, e, hu', List.mem_cons_of_mem _ hmem, ?_⟩
          intro x hx
          obtain ⟨a, b, c⟩ := hall x hx
          exact ⟨a, b, List.mem_cons_of_mem _ c⟩

theorem keepMessage_not_nullish (m : JVal) (h : keepMessage m = true) :
    m.isNullish = false := by
  cases m <;> simp_all [keepMessage, JVal.truthy, JVal.isNullish]

/-! ## Claims on grouping -/

/-- C1: for every event list (no entry `null` or `undefined`),
`groupMessagesIntoSteps` returns, and every turn it produces is non-empty, its
first event has `message.role === 'user'`, and no other event of the turn has
`message.role === 'user'`. -/
theorem group_turn_invariant (msgs : List JVal) (h : ∀ m ∈ msgs, m.isNullish = false) :
    ∃ steps, groupMessagesIntoSteps msgs = (steps, none) ∧
      ∀ turn ∈ steps, ∃ first others, turn = first :: others ∧ isUser first = true
        ∧ ∀ x ∈ others, isUser x = false := by
  obtain ⟨turns, h1, _, _, h4⟩ := groupLoop_spec msgs.length msgs [] le_rfl h
  refine ⟨turns, by simpa [groupMessagesIntoSteps] using h1, ?_⟩
  intro t ht
  obtain ⟨u, tl, e, hu, _, hall⟩ := h4 t ht
  exact ⟨u, tl, e, hu, fun x hx => (hall x hx).1⟩

theorem group_turn_invariant_witness :
    ∃ steps, groupMessagesIntoSteps scenario = (steps, none) ∧
      ∀ turn ∈ steps, ∃ first others, turn = first :: others ∧ isUser first = true
        ∧ ∀ x ∈ others, isUser x = false :=
  group_turn_invariant scenario (by decide)

/-- C2, as stated, fails: the system note after the user event passed the
loader's filter and follows the first user event, yet it is in no turn. -/
theorem group_concat_counterexample :
    [scenarioHi, systemNote].filter keepMessage = [scenarioHi, systemNote]
      ∧ groupMessagesIntoSteps [scenarioHi, systemNote] = ([[scenarioHi]], none)
      ∧ [[scenarioHi]].flatten
          ≠ [scenarioHi, systemNote].dropWhile (fun m => !isUser m) := by
  refine ⟨rfl, rfl, ?_⟩
  intro h
  have := congrArg List.length h
  revert this
  decide

/-- C2, amended: for every list of decoded lines, grouping the events that pass
the loader's filter returns, and concatenating the turns in order gives the
filtered list with the events before the first user event removed and with
every later event removed that is neither a user event nor accepted by the
grouper (type `thinking`, `tool_use`, `tool_result`, or role `assistant`). -/
theorem group_concat_filtered (decoded : List JVal) :
    ∃ steps, groupMessagesIntoSteps (decoded.filter keepMessage) = (steps, none) ∧
      steps.flatten = (((decoded.filter keepMessage).dropWhile (fun m => !isUser m)).filter
        (fun m => isUser m || isAccepted m)) := by
  have hnn : ∀ m ∈ decoded.filter keepMessage, m.isNullish = false :=
    fun m hm => keepMessage_not_nullish m (List.mem_filter.mp hm).2
  obtain ⟨turns, h1, h2, _, _⟩ :=
    groupLoop_spec (decoded.filter keepMessage).length _ [] le_rfl hnn
  exact ⟨turns, by simpa [groupMessagesIntoSteps] using h1, h2⟩

/-- C3: for every event list (no entry `null` or `undefined`) the number of
turns is the number of events with `message.role === 'user'`; the four decoded
lines of the scenario give two turns, of three events and of one. -/
theorem group_turn_count :
    (∀ msgs : List JVal, (∀ m ∈ msgs, m.isNullish = false) →
      ∃ steps, groupMessagesIntoSteps msgs = (steps, none)
        ∧ steps.length = msgs.countP isUser)
    ∧ groupMessagesIntoSteps scenario
        = ([[scenarioHi, scenarioThinking, scenarioHello], [scenarioBye]], none)
    ∧ [[scenarioHi, scenarioThinking, scenarioHello], [scenarioBye]].map List.length
        = [3, 1] := by
  refine ⟨?_, rfl, rfl⟩
  intro msgs h
  obtain ⟨turns, h1, _, h3, _⟩ := groupLoop_spec msgs.length msgs [] le_rfl h
  exact ⟨turns, by simpa [groupMessagesIntoSteps] using h1, h3⟩

theorem group_turn_count_witness :
    ∃ steps, groupMessagesIntoSteps [systemNote, scenarioBye, scenarioHello] = (steps, none)
      ∧ steps.length = [systemNote, scenarioBye, scenarioHello].countP isUser :=
  group_turn_count.1 [systemNote, scenarioBye, scenarioHello] (by decide)

/-! ## Regular expressions: what a match is -/

theorem mem_matches_chr {c : Char} {s : List Char} {caps : Nat → List Char} {m : Match}
    (h : m ∈ (Re.chr c).matches s caps) : s = c :: m.rest ∧ m.text = [c] ∧ m.caps = caps := by
  cases s with
  | nil => simp [Re.matches] at h
  | cons x t =>
    by_cases hx : x = c
    · subst hx
      simp [Re.matches] at h
      subst h
      simp
    · simp [Re.matches, hx] at h

theorem mem_matches_set {p : Char → Bool} {s : List Char} {caps : Nat → List Char} {m : Match}
    (h : m ∈ (Re.set p).matches s caps) :
    ∃ c, p c = true ∧ s = c :: m.rest ∧ m.text = [c] ∧ m.caps = caps := by
  cases s with
  | nil => simp [Re.matches] at h
  | cons x t =>
    by_cases hx : p x = true
    · simp [Re.matches, hx] at h
      subst h
      exact ⟨x, hx, rfl, rfl, rfl⟩
    · simp [Re.matches, hx] at h

theorem mem_matches_seq {a b : Re} {s : List Char} {caps : Nat → List Char} {m : Match}
    (h : m ∈ (Re.seq a b).matches s caps) :
    ∃ m1 ∈ a.matches s caps, ∃ m2 ∈ b.matches m1.rest m1.caps,
      m.text = m1.text ++ m2.text ∧ m.rest = m2.rest ∧ m.caps = m2.caps := by
  simp only [Re.matches, List.mem_flatMap, List.mem_map] at h
  obtain ⟨m1, h1, m2, h2, rfl⟩ := h
  exact ⟨m1, h1, m2, h2, rfl, rfl, rfl⟩

theorem mem_matches_alt {a b : Re} {s : List Char} {caps : Nat → List Char} {m : Match}
    (h : m ∈ (Re.alt a b).matches s caps) :
    m ∈ a.matches s caps ∨ m ∈ b.matches s caps := by
  simpa [Re.matches] using h

theorem mem_matches_grp {i : Nat} {r : Re} {s : List Char} {caps : Nat → List Char} {m : Match}
    (h : m ∈ (Re.grp i r).matches s caps) :
    ∃ m1 ∈ r.matches s caps, m.text = m1.text ∧ m.rest = m1.rest
      ∧ m.caps = fun j => if j = i then m1.text else m1.caps j := by
  simp only [Re.matches, List.mem_map] at h
  obtain ⟨m1, h1, rfl⟩ := h
  exact ⟨m1, h1, rfl, rfl, rfl⟩

theorem mem_manyRuns {greedy : Bool} {p : Char → Bool} :
    ∀ {s : List Char} {r : List Char × List Char}, r ∈ manyRuns greedy p s →
      s = r.1 ++ r.2 ∧ ∀ x ∈ r.1, p x = true := by
  intro s
  induction s with
  | nil =>
    intro r h
    simp [manyRuns] at h
    subst h
    simp
  | cons c t ih =>
    intro r h
    by_cases hp : p c = true
    · have hcases : r = ([], c :: t) ∨ ∃ r0 ∈ manyRuns greedy p t, r = (c :: r0.1, r0.2) := by
        cases greedy <;> simp [manyRuns, hp] at h
        · rcases h with h | ⟨a, b, h1, h2⟩
          · exact Or.inl h
          · exact Or.inr ⟨(a, b), h1, h2.symm⟩
        · rcases h with ⟨a, b, h1, h2⟩ | h
          · exact Or.inr ⟨(a, b), h1, h2.symm⟩
          · exact Or.inl h
      rcases hcases with rfl | ⟨r0, h0, rfl⟩
      · simp
      · obtain ⟨e, hall⟩ := ih h0
        refine ⟨by simp [← e], ?_⟩
        intro x hx
        rcases List.mem_cons.mp hx with rfl | hx
        · exact hp
        · exact hall x hx
    · simp [manyRuns, hp] at h
      subst h
      simp

theorem mem_matches_many {greedy : Bool} {p : Char → Bool} {s : List Char}
    {caps : Nat → List Char} {m : Match} (h : m ∈ (Re.many greedy p).matches s caps) :
    s = m.text ++ m.rest ∧ (∀ x ∈ m.text, p x = true) ∧ m.caps = caps := by
  simp only [Re.matches, List.mem_map] at h
  obtain ⟨r, hr, rfl⟩ := h
  obtain ⟨e, hall⟩ := mem_manyRuns hr
  exact ⟨e, hall, rfl⟩

theorem mem_matches_lit : ∀ (l : List Char) {s : List Char} {caps : Nat → List Char}
    {m : Match}, m ∈ (Re.lit l).matches s caps →
      s = l ++ m.rest ∧ m.text = l ∧ m.caps = caps := by
  intro l
  induction l with
  | nil =>
    intro s caps m h
    simp [Re.lit, Re.matches] at h
    subst h
    simp
  | cons c l ih =>
    intro s caps m h
    rw [Re.lit] at h
    obtain ⟨m1, h1, m2, h2, ht, hr, hc⟩ := mem_matches_seq h
    obtain ⟨e1, t1, c1⟩ := mem_matches_chr h1
    obtain ⟨e2, t2, c2⟩ := ih h2
    refine ⟨?_, ?_, ?_⟩
    · rw [e1, e2, hr]; rfl
    · rw [ht, t1, t2]; rfl
    · rw [hc, c2, c1]

theorem mem_matches_alts : ∀ (ss : List String) {s : List Char} {caps : Nat → List Char}
    {m : Match}, m ∈ (Re.alts ss).matches s caps →
      ∃ x ∈ ss, s = x.data ++ m.rest ∧ m.text = x.data ∧ m.caps = caps := by
  intro ss
  induction ss with
  | nil => intro s caps m h; cases s <;> simp [Re.alts, Re.matches] at h
  | cons a ss ih =>
    intro s caps m h
    cases ss with
    | nil =>
      rw [Re.alts] at h
      exact ⟨a, List.mem_cons_self _ _, mem_matches_lit _ h⟩
    | cons b ss =>
      simp only [Re.alts] at h
      rcases mem_matches_alt h with h | h
      · exact ⟨a, List.mem_cons_self _ _, mem_matches_lit _ h⟩
      · obtain ⟨x, hx, hh⟩ := ih h
        exact ⟨x, List.mem_cons_of_mem _ hx, hh⟩

/-! ## Tag safety: lemmas -/

theorem prefix_of_prefix_append {o : List Char} :
    ∀ {a b : List Char}, o <+: a ++ b → (∀ x ∈ o, b.head? ≠ some x) → o <+: a := by
  induction o with
  | nil => intro a b _ _; exact List.nil_prefix
  | cons x o ih =>
    intro a b h hb
    cases a with
    | nil =>
      cases b with
      | nil => simp at h
      | cons y b =>
        have hxy : x = y := by
          have := List.cons_prefix_cons.mp h
          exact this.1
        exact absurd (by simp [hxy]) (hb x (List.mem_cons_self _ _))
    | cons y a =>
      have h2 := List.cons_prefix_cons.mp (by simpa using h : x :: o <+: y :: (a ++ b))
      have h3 : o <+: a := ih h2.2 (fun z hz => hb z (List.mem_cons_of_mem _ hz))
      rw [h2.1]
      exact List.cons_prefix_cons.mpr ⟨rfl, h3⟩

theorem startsTag_iff {openers : List (List Char)} {l : List Char} :
    startsTag openers l = true ↔ ∃ o ∈ openers, o <+: l := by
  simp [startsTag, List.any_eq_true, List.isPrefixOf_iff_prefix]

theorem tagSafe_cons {openers : List (List Char)} {c : Char} {t : List Char} :
    tagSafe openers (c :: t) = true ↔
      (c = '<' → startsTag openers (c :: t) = true) ∧ tagSafe openers t = true := by
  by_cases hc : c = '<' <;> simp [tagSafe, hc]

theorem tagSafe_append {openers : List (List Char)} :
    ∀ {a b : List Char}, tagSafe openers a = true → tagSafe openers b = true →
      tagSafe openers (a ++ b) = true := by
  intro a
  induction a with
  | nil => intro b _ hb; simpa using hb
  | cons c t ih =>
    intro b ha hb
    rw [tagSafe_cons] at ha
    rw [List.cons_append, tagSafe_cons]
    refine ⟨fun hc => ?_, ih ha.2 hb⟩
    obtain ⟨o, ho, hp⟩ := startsTag_iff.mp (ha.1 hc)
    exact startsTag_iff.mpr ⟨o, ho, hp.trans (List.prefix_append (c :: t) b)⟩

theorem tagSafe_of_append_right {openers : List (List Char)} :
    ∀ {a b : List Char}, tagSafe openers (a ++ b) = true → tagSafe openers b = true := by
  intro a
  induction a with
  | nil => intro b h; simpa using h
  | cons c t ih =>
    intro b h
    rw [List.cons_append, tagSafe_cons] at h
    exact ih h.2

/-- A tag beginning that starts in `a` ends in `a` when the text goes on with a
character that no tag beginning has after its `<`. -/
theorem tagSafe_of_append_left {openers : List (List Char)}
    (hwf : ∀ o ∈ openers, o ≠ []) :
    ∀ {a b : List Char}, tagSafe openers (a ++ b) = true →
      (∀ o ∈ openers, ∀ x ∈ o.tail, b.head? ≠ some x) → tagSafe openers a = true := by
  intro a
  induction a with
  | nil => intro b _ _; rfl
  | cons c t ih =>
    intro b h hb
    rw [List.cons_append, tagSafe_cons] at h
    rw [tagSafe_cons]
    refine ⟨fun hc => ?_, ih h.2 hb⟩
    obtain ⟨o, ho, hp⟩ := startsTag_iff.mp (h.1 hc)
    refine startsTag_iff.mpr ⟨o, ho, ?_⟩
    cases o with
    | nil => exact absurd rfl (hwf _ ho)
    | cons x o =>
      have h2 := List.cons_prefix_cons.mp hp
      have h3 : o <+: t := prefix_of_prefix_append h2.2 (fun z hz => hb _ ho z (by simpa using hz))
      exact List.cons_prefix_cons.mpr ⟨h2.1, h3⟩

theorem tagSafe_of_no_lt {openers : List (List Char)} :
    ∀ {l : List Char}, (∀ x ∈ l, x ≠ '<') → tagSafe openers l = true := by
  intro l
  induction l with
  | nil => intro _; rfl
  | cons c t ih =>
    intro h
    rw [tagSafe_cons]
    exact ⟨fun hc => absurd hc (h c (List.mem_cons_self _ _)),
      ih (fun x hx => h x (List.mem_cons_of_mem _ hx))⟩

/-- In a tag-safe text every `<` begins one of the tag beginnings. -/
theorem tagSafe_split {openers : List (List Char)} {l pre post : List Char}
    (h : tagSafe openers l = true) (e : l = pre ++ '<' :: post) :
    ∃ o ∈ openers, o <+: '<' :: post := by
  subst e
  have h2 := tagSafe_of_append_right h
  rw [tagSafe_cons] at h2
  exact startsTag_iff.mp (h2.1 rfl)

/-- A tag-safe text does not contain a pattern that begins with `<` and agrees
with none of the tag beginnings. -/
theorem tagSafe_excludes {openers : List (List Char)} {l pat : List Char}
    (h : tagSafe openers l = true)
    (hpat : ∀ o ∈ openers, o.isPrefixOf ('<' :: pat) = false ∧ ('<' :: pat).isPrefixOf o = false) :
    ¬ ('<' :: pat) <:+: l := by
  rintro ⟨pre, post, e⟩
  have e2 : l = pre ++ '<' :: (pat ++ post) := by simp [← e]
  obtain ⟨o, ho, hp⟩ := tagSafe_split h e2
  have hq : '<' :: pat <+: '<' :: (pat ++ post) := ⟨post, by simp⟩
  have h1 := (hpat o ho).1
  have h2 := (hpat o ho).2
  rcases List.prefix_or_prefix_of_prefix hp hq with h3 | h3
  · rw [← List.isPrefixOf_iff_prefix] at h3
    rw [h3] at h1
    exact Bool.noConfusion h1
  · rw [← List.isPrefixOf_iff_prefix] at h3
    rw [h3] at h2
    exact Bool.noConfusion h2

/-! ## Global replacement keeps a text tag-safe -/

theorem mem_of_exec {r : Re} {s : List Char} {m : Match} (h : r.exec s = some m) :
    m ∈ r.matches s (fun _ => []) :=
  List.mem_of_mem_head? (by simpa [Re.exec] using h)

theorem replaceLoop_succ (r : Re) (f : Match → List Char) (fuel : Nat) (s : List Char) :
    replaceLoop r f (fuel + 1) s =
      match r.exec s with
      | some m =>
        match m.text with
        | _ :: _ => f m ++ replaceLoop r f fuel m.rest
        | [] =>
          match s with
          | [] => f m
          | c :: t => f m ++ c :: replaceLoop r f fuel t
      | none =>
        match s with
        | [] => []
        | c :: t => c :: replaceLoop r f fuel t := by
  cases s <;> rfl

/-- The part of a tag beginning after its `<` is copied when no match starts
with one of its characters. -/
theorem replaceLoop_copies (r : Re) (f : Match → List Char) (o : List Char)
    (hstart : ∀ s m, r.exec s = some m → ∀ c t, s = c :: t → c ∉ o) :
    ∀ (o2 : List Char), (∀ x ∈ o2, x ∈ o) → ∀ (fuel : Nat) (t : List Char),
      o2 <+: t → o2 <+: replaceLoop r f fuel t := by
  intro o2
  induction o2 with
  | nil => intro _ _ _ _; exact List.nil_prefix
  | cons x o2 ih =>
    intro hsub fuel t hp
    cases t with
    | nil => simp at hp
    | cons y t =>
      have h2 := List.cons_prefix_cons.mp hp
      cases fuel with
      | zero => simpa [replaceLoop] using hp
      | succ fuel =>
        rw [replaceLoop_succ]
        cases hex : r.exec (y :: t) with
        | some m =>
          exfalso
          have := hstart _ m hex y t rfl
          exact this (h2.1 ▸ hsub x (List.mem_cons_self _ _))
        | none =>
          simp only
          exact List.cons_prefix_cons.mpr
            ⟨h2.1, ih (fun z hz => hsub z (List.mem_cons_of_mem _ hz)) fuel t h2.2⟩

/-- A global replacement keeps a text tag-safe when every match is non-empty
and starts with a character that no tag beginning has after its `<`, and the
replacement of a match in a tag-safe text is tag-safe. -/
theorem replaceLoop_tagSafe (openers : List (List Char)) (r : Re) (f : Match → List Char)
    (hwf : ∀ o ∈ openers, o ≠ [])
    (hstart : ∀ s m, r.exec s = some m →
      m.text ≠ [] ∧ ∀ c t, s = c :: t → ∀ o ∈ openers, c ∉ o.tail)
    (hrep : ∀ s m, tagSafe openers s = true → r.exec s = some m →
      tagSafe openers (f m) = true ∧ ∃ pre, s = pre ++ m.rest) :
    ∀ (fuel : Nat) (s : List Char), tagSafe openers s = true →
      tagSafe openers (replaceLoop r f fuel s) = true := by
  intro fuel
  induction fuel with
  | zero => intro s hs; simpa [replaceLoop] using hs
  | succ fuel ih =>
    intro s hs
    rw [replaceLoop_succ]
    cases hex : r.exec s with
    | some m =>
      obtain ⟨hne, _⟩ := hstart s m hex
      obtain ⟨hfm, pre, hpre⟩ := hrep s m hs hex
      have hrest : tagSafe openers m.rest = true := by
        rw [hpre] at hs
        exact tagSafe_of_append_right hs
      cases htext : m.text with
      | nil => exact absurd htext hne
      | cons a b =>
        simp only [htext]
        exact tagSafe_append hfm (ih _ hrest)
    | none =>
      cases s with
      | nil => rfl
      | cons c t =>
        simp only
        rw [tagSafe_cons] at hs
        rw [tagSafe_cons]
        refine ⟨fun hc => ?_, ih t hs.2⟩
        obtain ⟨o, ho, hp⟩ := startsTag_iff.mp (hs.1 hc)
        refine startsTag_iff.mpr ⟨o, ho, ?_⟩
        cases o with
        | nil => exact absurd rfl (hwf _ ho)
        | cons x o =>
          have h2 := List.cons_prefix_cons.mp hp
          refine List.cons_prefix_cons.mpr ⟨h2.1, ?_⟩
          refine replaceLoop_copies r f o ?_ o (fun _ hz => hz) fuel t h2.2
          intro s2 m2 hm2 c2 t2 e2
          exact (hstart s2 m2 hm2).2 c2 t2 e2 _ ho

/-! ## Escaping: lemmas -/

theorem exec_set_cons (p : Char → Bool) (c : Char) (t : List Char) :
    (Re.set p).exec (c :: t) = if p c then some ⟨[c], t, fun _ => []⟩ else none := by
  by_cases h : p c = true <;> simp [Re.exec, Re.matches, h]

theorem entityOf_special (c : Char) (t : List Char) (caps : Nat → List Char)
    (h : isSpecial c = true) : (entityOf ⟨[c], t, caps⟩).data = escapeChar c := by
  simp only [isSpecial, Bool.or_eq_true, decide_eq_true_eq] at h
  rcases h with (((h | h) | h) | h) | h <;> subst h <;> rfl

theorem escapeChar_not_special (c : Char) (h : isSpecial c = false) : escapeChar c = [c] := by
  simp only [isSpecial, Bool.or_eq_false_iff, decide_eq_false_iff_not] at h
  obtain ⟨⟨⟨⟨h1, h2⟩, h3⟩, h4⟩, h5⟩ := h
  simp [escapeChar, h1, h2, h3, h4, h5]

theorem replaceLoop_escape : ∀ (fuel : Nat) (s : List Char), s.length < fuel →
    replaceLoop (.set isSpecial) (fun m => (entityOf m).data) fuel s
      = s.flatMap escapeChar := by
  intro fuel
  induction fuel with
  | zero => intro s h; exact absurd h (Nat.not_lt_zero _)
  | succ fuel ih =>
    intro s h
    cases s with
    | nil => simp [replaceLoop, Re.exec, Re.matches]
    | cons c t =>
      have ht : t.length < fuel := by simpa using h
      rw [replaceLoop_succ, exec_set_cons]
      by_cases hc : isSpecial c = true
      · simp only [hc, if_true]
        rw [ih t ht, entityOf_special c t _ hc]
        simp [List.flatMap_cons]
      · have hc2 : isSpecial c = false := by simpa using hc
        simp only [hc2]
        rw [ih t ht]
        simp [List.flatMap_cons, escapeChar_not_special c hc2]

theorem escapeHTML_data (s : String) :
    (escapeHTML (.str s)).data = s.data.flatMap escapeChar := by
  simp only [escapeHTML, jsReplace]
  exact replaceLoop_escape _ _ (Nat.lt_succ_self _)

theorem escapeChar_no_markup (c x : Char) (h : x ∈ escapeChar c) :
    x ≠ '<' ∧ x ≠ '>' ∧ x ≠ Char.ofNat 34 ∧ x ≠ Char.ofNat 39 := by
  unfold escapeChar at h
  split_ifs at h with h1 h2 h3 h4 h5
  · revert x; decide
  · revert x; decide
  · revert x; decide
  · revert x; decide
  · revert x; decide
  · simp at h
    subst h
    exact ⟨h2, h3, h4, h5⟩

theorem escapeHTML_no_markup (v : JVal) (x : Char) (h : x ∈ (escapeHTML v).data) :
    x ≠ '<' ∧ x ≠ '>' ∧ x ≠ Char.ofNat 34 ∧ x ≠ Char.ofNat 39 := by
  cases v with
  | str s =>
    rw [escapeHTML_data, List.mem_flatMap] at h
    obtain ⟨c, _, hx⟩ := h
    exact escapeChar_no_markup c x hx
  | _ => simp [escapeHTML] at h

theorem escapeHTML_tagSafe (openers : List (List Char)) (v : JVal) :
    tagSafe openers (escapeHTML v).data = true :=
  tagSafe_of_no_lt (fun x hx => (escapeHTML_no_markup v x hx).1)

/-! ## Claims on escaping -/

theorem cardOpeners_wf : ∀ o ∈ cardOpeners, o ≠ [] := by decide

theorem cardOpeners_no_script :
    ∀ o ∈ cardOpeners, o.isPrefixOf ('<' :: "script>".data) = false
      ∧ ('<' :: "script>".data).isPrefixOf o = false := by decide

theorem createUserCard_str (t : String) :
    createUserCard (.str t) = .ok
      ("\n    <div class=\"chat-message user-message\">\n      <div class=\"d-flex align-items-center mb-2\">\n        <i class=\"bi bi-person-fill me-2\" style=\"font-size: 1.2rem;\"></i>\n        <strong class=\"fs-6\">User</strong>\n      </div>\n      <pre style=\"white-space: pre-wrap; word-wrap: break-word; margin: 0; font-family: var(--font-monospace); font-size: 0.9rem;\"><code>"
        ++ escapeHTML (.str t) ++ "</code></pre>\n    </div>") := rfl

theorem createCollapsedCard_str (title t lang : String) (isError : JVal) :
    createCollapsedCard title (.str t) lang isError = .ok
      ("\n    <div class=\"collapsed-message " ++ (if isError.truthy then "is-error" else "")
        ++ "\">\n      <details>\n        <summary>" ++ escapeHTML (.str title)
        ++ "</summary>\n        <div class=\"tool-result "
        ++ (if isError.truthy then "is-error" else "")
        ++ "\">\n          <pre><code class=\"language-" ++ lang ++ "\">"
        ++ escapeHTML (.str t)
        ++ "</code></pre>\n        </div>\n      </details>\n    </div>") := rfl

theorem createUserCard_tagSafe (t : String) :
    ∃ frag, createUserCard (.str t) = .ok frag ∧ tagSafe cardOpeners frag.data = true := by
  refine ⟨_, createUserCard_str t, ?_⟩
  rw [String.data_append, String.data_append]
  exact tagSafe_append (tagSafe_append (by decide) (escapeHTML_tagSafe _ _)) (by decide)

theorem createCollapsedCard_tagSafe (title : String) (content : JVal) (lang : String)
    (isError : JVal) (frag : String) (hlang : lang ∈ ["plaintext", "json", "bash"])
    (h : createCollapsedCard title content lang isError = .ok frag) :
    tagSafe cardOpeners frag.data = true := by
  cases hs : jsString content with
  | error e => simp [createCollapsedCard, hs, bind, Except.bind] at h
  | ok text =>
    simp only [createCollapsedCard, hs, bind, Except.bind, pure, Except.pure,
      Except.ok.injEq] at h
    subst h
    have herr : tagSafe cardOpeners (if isError.truthy then "is-error" else "").data = true := by
      cases isError.truthy <;> decide
    have hl : tagSafe cardOpeners lang.data = true := by
      simp only [List.mem_cons, List.mem_singleton, List.not_mem_nil, or_false] at hlang
      rcases hlang with rfl | rfl | rfl <;> decide
    repeat rw [String.data_append]
    refine tagSafe_append (tagSafe_append (tagSafe_append (tagSafe_append (tagSafe_append
      (tagSafe_append (tagSafe_append (tagSafe_append (tagSafe_append (tagSafe_append
      ?_ herr) ?_) (escapeHTML_tagSafe _ _)) ?_) herr) ?_) hl) ?_)
      (escapeHTML_tagSafe _ _)) ?_ <;> decide

/-- C4: `escapeHTML` replaces each of `& < > " '` by its entity and leaves
every other character unchanged; the fragments of `createUserCard(t)` and of
`createCollapsedCard(title, t, lang, isError)` are a text that does not depend
on `t`, then `escapeHTML(t)`, then a text that does not depend on `t`; and
neither fragment contains `<script>` (for the values of `lang` that the callers
pass). -/
theorem escaped_cards_no_script :
    (∀ t : String, (escapeHTML (.str t)).data = t.data.flatMap escapeChar)
    ∧ (∃ head tail : String, ∀ t : String,
        createUserCard (.str t) = .ok (head ++ escapeHTML (.str t) ++ tail))
    ∧ (∀ (title lang : String) (isError : JVal), ∃ head tail : String, ∀ t : String,
        createCollapsedCard title (.str t) lang isError
          = .ok (head ++ escapeHTML (.str t) ++ tail))
    ∧ (∀ t : String, ∃ frag, createUserCard (.str t) = .ok frag
        ∧ ¬ "<script>".data <:+: frag.data)
    ∧ (∀ (title t lang : String) (isError : JVal), lang ∈ ["plaintext", "json", "bash"] →
        ∃ frag, createCollapsedCard title (.str t) lang isError = .ok frag
          ∧ ¬ "<script>".data <:+: frag.data) := by
  refine ⟨escapeHTML_data, ⟨_, _, createUserCard_str⟩, ?_, ?_, ?_⟩
  · intro title lang isError
    exact ⟨_, _, fun t => createCollapsedCard_str title t lang isError⟩
  · intro t
    obtain ⟨frag, h1, h2⟩ := createUserCard_tagSafe t
    exact ⟨frag, h1, tagSafe_excludes h2 cardOpeners_no_script⟩
  · intro title t lang isError hlang
    refine ⟨_, createCollapsedCard_str title t lang isError, ?_⟩
    exact tagSafe_excludes
      (createCollapsedCard_tagSafe title (.str t) lang isError _ hlang
        (createCollapsedCard_str title t lang isError))
      cardOpeners_no_script

theorem escaped_cards_no_script_witness :
    ∃ frag, createCollapsedCard "Tool Result" (.str "<script>alert(1)</script>") "bash"
        (.bool false) = .ok frag
      ∧ ¬ "<script>".data <:+: frag.data :=
  escaped_cards_no_script.2.2.2.2 "Tool Result" "<script>alert(1)</script>" "bash"
    (.bool false) (by decide)

/-! ## The markdown substitutions keep a text tag-safe -/

theorem tagOpeners_wf : ∀ o ∈ tagOpeners, o ≠ [] := by decide

theorem tagOpeners_tail : ∀ o ∈ tagOpeners, ∀ x ∈ o.tail, x ∈ tagInnerChars := by decide

theorem not_inner_of {c : Char} (h : c ∉ tagInnerChars) : ∀ o ∈ tagOpeners, c ∉ o.tail :=
  fun o ho hc => h (tagOpeners_tail o ho c hc)

theorem head_not_inner {c : Char} {b : List Char} (h : c ∉ tagInnerChars) :
    ∀ o ∈ tagOpeners, ∀ x ∈ o.tail, (c :: b).head? ≠ some x := by
  intro o ho x hx e
  simp only [List.head?_cons, Option.some.injEq] at e
  exact not_inner_of h o ho (e ▸ hx)

theorem lineTerminator_not_inner {c : Char} (h : isLineTerminator c = true) :
    c ∉ tagInnerChars := by
  simp only [isLineTerminator, Bool.or_eq_true, decide_eq_true_eq] at h
  rcases h with ((h | h) | h) | h <;> subst h <;> decide

/-- The text before a character that occurs in no tag beginning is tag-safe
when the whole text is. -/
theorem tagSafe_before {a b : List Char} {c : Char} (h : tagSafe tagOpeners (a ++ c :: b) = true)
    (hc : c ∉ tagInnerChars) : tagSafe tagOpeners a = true :=
  tagSafe_of_append_left tagOpeners_wf h (head_not_inner hc)

theorem jsReplace_tagSafe (r : Re) (f : Match → String)
    (hstart : ∀ s m, r.exec s = some m →
      m.text ≠ [] ∧ ∀ c t, s = c :: t → c ∉ tagInnerChars)
    (hrep : ∀ s m, tagSafe tagOpeners s = true → r.exec s = some m →
      tagSafe tagOpeners (f m).data = true ∧ ∃ pre, s = pre ++ m.rest)
    (s : String) (hs : tagSafe tagOpeners s.data = true) :
    tagSafe tagOpeners (jsReplace r f s).data = true := by
  simp only [jsReplace]
  refine replaceLoop_tagSafe tagOpeners r _ tagOpeners_wf ?_ hrep _ _ hs
  intro s2 m hm
  obtain ⟨h1, h2⟩ := hstart s2 m hm
  exact ⟨h1, fun c t e => not_inner_of (h2 c t e)⟩

theorem matches_text_rest : ∀ (r : Re) {s : List Char} {caps : Nat → List Char} {m : Match},
    m ∈ r.matches s caps → s = m.text ++ m.rest := by
  intro r
  induction r with
  | eps =>
    intro s caps m h
    simp [Re.matches] at h
    subst h
    rfl
  | chr c =>
    intro s caps m h
    obtain ⟨e, t, _⟩ := mem_matches_chr h
    rw [t, e]; rfl
  | set p =>
    intro s caps m h
    obtain ⟨c, _, e, t, _⟩ := mem_matches_set h
    rw [t, e]; rfl
  | seq a b iha ihb =>
    intro s caps m h
    obtain ⟨m1, h1, m2, h2, ht, hr, _⟩ := mem_matches_seq h
    rw [iha h1, ihb h2, ht, hr, List.append_assoc]
  | alt a b iha ihb =>
    intro s caps m h
    rcases mem_matches_alt h with h | h
    · exact iha h
    · exact ihb h
  | many g p =>
    intro s caps m h
    exact (mem_matches_many h).1
  | grp i r ih =>
    intro s caps m h
    obtain ⟨m1, h1, ht, hr, _⟩ := mem_matches_grp h
    rw [ih h1, ht, hr]

theorem exec_rest {r : Re} {s : List Char} {m : Match} (h : r.exec s = some m) :
    ∃ pre, s = pre ++ m.rest :=
  ⟨m.text, matches_text_rest r (mem_of_exec h)⟩

/-- The fuel of `jsReplace` is enough: with more fuel than the input has
characters, the loop ends on the empty input, whatever the fuel. -/
theorem replaceLoop_fuel (r : Re) (f : Match → List Char) :
    ∀ (fuel1 fuel2 : Nat) (s : List Char), s.length < fuel1 → s.length < fuel2 →
      replaceLoop r f fuel1 s = replaceLoop r f fuel2 s := by
  intro fuel1
  induction fuel1 with
  | zero => intro _ s h; exact absurd h (Nat.not_lt_zero _)
  | succ fuel1 ih =>
    intro fuel2 s h1 h2
    cases fuel2 with
    | zero => exact absurd h2 (Nat.not_lt_zero _)
    | succ fuel2 =>
      rw [replaceLoop_succ, replaceLoop_succ]
      cases hex : r.exec s with
      | some m =>
        have e := matches_text_rest r (mem_of_exec hex)
        cases htext : m.text with
        | cons a b =>
          have hlen : m.rest.length < s.length := by
            rw [e, htext]; simp; omega
          simp only [htext]
          rw [ih fuel2 m.rest (by omega) (by omega)]
        | nil =>
          cases s with
          | nil => simp only [htext]
          | cons c t =>
            simp only [htext]
            rw [ih fuel2 t (by simpa using h1) (by simpa using h2)]
      | none =>
        cases s with
        | nil => rfl
        | cons c t =>
          simp only
          rw [ih fuel2 t (by simpa using h1) (by simpa using h2)]

/-- A match of an expression that begins with the literal `c :: l` is not empty
and starts at a `c`. -/
theorem seq_lit_start {c : Char} {l : List Char} {r : Re} {s : List Char}
    {caps : Nat → List Char} {m : Match} (h : m ∈ (Re.seq (Re.lit (c :: l)) r).matches s caps) :
    m.text ≠ [] ∧ ∀ x t, s = x :: t → x = c := by
  obtain ⟨m1, h1, m2, _, ht, _, _⟩ := mem_matches_seq h
  obtain ⟨e, t1, _⟩ := mem_matches_lit _ h1
  refine ⟨by simp [ht, t1], ?_⟩
  intro x t e2
  rw [e2] at e
  simp only [List.cons_append, List.cons.injEq] at e
  exact e.1

theorem lit_start {c : Char} {l : List Char} {s : List Char}
    {caps : Nat → List Char} {m : Match} (h : m ∈ (Re.lit (c :: l)).matches s caps) :
    m.text ≠ [] ∧ ∀ x t, s = x :: t → x = c := by
  obtain ⟨e, t1, _⟩ := mem_matches_lit _ h
  refine ⟨by simp [t1], ?_⟩
  intro x t e2
  rw [e2] at e
  simp only [List.cons_append, List.cons.injEq] at e
  exact e.1

theorem chr_start {c : Char} {s : List Char} {caps : Nat → List Char} {m : Match}
    (h : m ∈ (Re.chr c).matches s caps) : m.text ≠ [] ∧ ∀ x t, s = x :: t → x = c := by
  obtain ⟨e, t1, _⟩ := mem_matches_chr h
  refine ⟨by simp [t1], ?_⟩
  intro x t e2
  rw [e2] at e
  exact (List.cons.inj e).1

/-- The replacement by a fixed text of the matches of an expression whose
matches start at a given character. -/
theorem jsReplace_const_tagSafe (d : Re) (c : Char) (rep : String)
    (hd : ∀ s caps m, m ∈ d.matches s caps → m.text ≠ [] ∧ ∀ x t, s = x :: t → x = c)
    (hc : c ∉ tagInnerChars) (hrep : tagSafe tagOpeners rep.data = true)
    (s : String) (hs : tagSafe tagOpeners s.data = true) :
    tagSafe tagOpeners (jsReplace d (fun _ => rep) s).data = true := by
  refine jsReplace_tagSafe _ _ ?_ ?_ s hs
  · intro s2 m hm
    obtain ⟨h1, h2⟩ := hd _ _ _ (mem_of_exec hm)
    exact ⟨h1, fun x t e => (h2 x t e) ▸ hc⟩
  · intro s2 m _ hm
    exact ⟨hrep, exec_rest hm⟩

/-- The rules that wrap the text between two delimiters in a tag: the captured
text ends before a delimiter, which occurs in no tag beginning. -/
theorem jsReplace_wrap_tagSafe (d1 x d2 : Re) (c1 c2 : Char) (pre post : String)
    (hd1 : ∀ s caps m, m ∈ d1.matches s caps → m.text ≠ [] ∧ ∀ y t, s = y :: t → y = c1)
    (hd2 : ∀ s caps m, m ∈ d2.matches s caps → (∃ t, s = c2 :: t) ∧ m.caps = caps)
    (hc1 : c1 ∉ tagInnerChars) (hc2 : c2 ∉ tagInnerChars)
    (hpre : tagSafe tagOpeners pre.data = true) (hpost : tagSafe tagOpeners post.data = true)
    (s : String) (hs : tagSafe tagOpeners s.data = true) :
    tagSafe tagOpeners (jsReplace (.seq d1 (.seq (.grp 1 x) d2))
      (fun m => pre ++ String.mk (m.caps 1) ++ post) s).data = true := by
  refine jsReplace_tagSafe _ _ ?_ ?_ s hs
  · intro s2 m hm
    obtain ⟨a, ha, b, _, ht, _, _⟩ := mem_matches_seq (mem_of_exec hm)
    obtain ⟨h1, h2⟩ := hd1 _ _ _ ha
    refine ⟨?_, fun y t e => (h2 y t e) ▸ hc1⟩
    rw [ht]
    intro hnil
    exact h1 (List.append_eq_nil.mp hnil).1
  · intro s2 m hs2 hm
    refine ⟨?_, exec_rest hm⟩
    obtain ⟨a, ha, b, hb, _, _, hmc⟩ := mem_matches_seq (mem_of_exec hm)
    obtain ⟨g, hg, l2, hl2, _, _, hbc⟩ := mem_matches_seq hb
    obtain ⟨g0, hg0, hgt, hgr, hgc⟩ := mem_matches_grp hg
    obtain ⟨⟨t, ht⟩, hl2c⟩ := hd2 _ _ _ hl2
    have hcap : m.caps 1 = g.text := by
      rw [hmc, hbc, hl2c, hgc]
      simp [hgt]
    have e1 := matches_text_rest _ ha
    have e2 := matches_text_rest _ hg
    have hsafe : tagSafe tagOpeners g.text = true := by
      rw [e1] at hs2
      have h3 := tagSafe_of_append_right hs2
      rw [e2, ht] at h3
      exact tagSafe_before h3 hc2
    show tagSafe tagOpeners (pre ++ String.mk (m.caps 1) ++ post).data = true
    rw [String.data_append, String.data_append, hcap]
    exact tagSafe_append (tagSafe_append hpre hsafe) hpost

theorem lit_follow {c : Char} {l : List Char} {s : List Char} {caps : Nat → List Char}
    {m : Match} (h : m ∈ (Re.lit (c :: l)).matches s caps) :
    (∃ t, s = c :: t) ∧ m.caps = caps := by
  obtain ⟨e, _, hc⟩ := mem_matches_lit _ h
  exact ⟨⟨l ++ m.rest, by simpa using e⟩, hc⟩

theorem chr_follow {c : Char} {s : List Char} {caps : Nat → List Char}
    {m : Match} (h : m ∈ (Re.chr c).matches s caps) :
    (∃ t, s = c :: t) ∧ m.caps = caps := by
  obtain ⟨e, _, hc⟩ := mem_matches_chr h
  exact ⟨⟨m.rest, e⟩, hc⟩

theorem bold_tagSafe (s : String) (hs : tagSafe tagOpeners s.data = true) :
    tagSafe tagOpeners (jsReplace reBold
      (fun m => "<strong>" ++ String.mk (m.caps 1) ++ "</strong>") s).data = true :=
  jsReplace_wrap_tagSafe (Re.lit "**".data) _ (Re.lit "**".data) '*' '*' _ _
    (fun _ _ _ h => lit_start h) (fun _ _ _ h => lit_follow h)
    (by decide) (by decide) (by decide) (by decide) s hs

theorem italic_tagSafe (s : String) (hs : tagSafe tagOpeners s.data = true) :
    tagSafe tagOpeners (jsReplace reItalic
      (fun m => "<em>" ++ String.mk (m.caps 1) ++ "</em>") s).data = true :=
  jsReplace_wrap_tagSafe (.chr '*') _ (.chr '*') '*' '*' _ _
    (fun _ _ _ h => chr_start h) (fun _ _ _ h => chr_follow h)
    (by decide) (by decide) (by decide) (by decide) s hs

theorem inlineCode_tagSafe (s : String) (hs : tagSafe tagOpeners s.data = true) :
    tagSafe tagOpeners (jsReplace reInlineCode (fun m =>
      "<code style=\"background-color: #e9ecef; padding: .2em .4em; border-radius: .25rem;\">"
        ++ String.mk (m.caps 1) ++ "</code>") s).data = true :=
  jsReplace_wrap_tagSafe (.chr (Char.ofNat 96)) _ (.chr (Char.ofNat 96))
    (Char.ofNat 96) (Char.ofNat 96) _ _
    (fun _ _ _ h => chr_start h) (fun _ _ _ h => chr_follow h)
    (by decide) (by decide) (by decide) (by decide) s hs

theorem fence_language_tagSafe :
    ∀ x ∈ ["javascript", "js", "python", "html", "css", "json", "bash", "sh", ""],
      tagSafe tagOpeners (if x != "" then x else "plaintext").data = true := by decide

theorem fence_tagSafe (s : String) (hs : tagSafe tagOpeners s.data = true) :
    tagSafe tagOpeners (jsReplace reFence fenceReplacer s).data = true := by
  refine jsReplace_tagSafe _ _ ?_ ?_ s hs
  · intro s2 m hm
    obtain ⟨h1, h2⟩ := seq_lit_start (c := Char.ofNat 96) (l := [Char.ofNat 96, Char.ofNat 96])
      (mem_of_exec hm)
    exact ⟨h1, fun x t e => (h2 x t e) ▸ (by decide)⟩
  · intro s2 m hs2 hm
    refine ⟨?_, exec_rest hm⟩
    obtain ⟨a, ha, b, hb, _, _, hmc⟩ := mem_matches_seq (mem_of_exec hm)
    obtain ⟨g1, hg1, b2, hb2, _, _, hbc⟩ := mem_matches_seq hb
    obtain ⟨g2, hg2, b3, hb3, _, _, hb2c⟩ := mem_matches_seq hb2
    obtain ⟨g3, hg3, l2, hl2, _, _, hb3c⟩ := mem_matches_seq hb3
    obtain ⟨i1, hi1, hg1t, _, hg1c⟩ := mem_matches_grp hg1
    obtain ⟨i2, hi2, _, _, hg2c⟩ := mem_matches_grp hg2
    obtain ⟨i3, hi3, hg3t, _, hg3c⟩ := mem_matches_grp hg3
    obtain ⟨lang, hlang, _, hi1t, _⟩ := mem_matches_alts _ hi1
    obtain ⟨hl2e, _, hl2c⟩ := mem_matches_lit _ hl2
    have hi2c : i2.caps = g1.caps := by
      rcases mem_matches_alt hi2 with h | h
      · exact (mem_matches_chr h).2.2
      · simp [Re.matches] at h
        rw [h]
    have hi3c : i3.caps = g2.caps := (mem_matches_many hi3).2.2
    have hcap1 : m.caps 1 = lang.data := by
      rw [hmc, hbc, hb2c, hb3c, hl2c, hg3c]
      simp only [show (1 : Nat) ≠ 3 by decide, if_false]
      rw [hi3c, hg2c]
      simp only [show (1 : Nat) ≠ 2 by decide, if_false]
      rw [hi2c, hg1c]
      simp [hi1t]
    have hcap3 : m.caps 3 = g3.text := by
      rw [hmc, hbc, hb2c, hb3c, hl2c, hg3c]
      simp [hg3t]
    have hsafe3 : tagSafe tagOpeners g3.text = true := by
      rw [matches_text_rest _ ha] at hs2
      have h3 := tagSafe_of_append_right hs2
      rw [matches_text_rest _ hg1] at h3
      have h4 := tagSafe_of_append_right h3
      rw [matches_text_rest _ hg2] at h4
      have h5 := tagSafe_of_append_right h4
      rw [matches_text_rest _ hg3, hl2e] at h5
      exact tagSafe_before (c := Char.ofNat 96) h5 (by decide)
    have hlangsafe := fence_language_tagSafe lang hlang
    simp only [fenceReplacer, hcap1, hcap3]
    repeat rw [String.data_append]
    exact tagSafe_append (tagSafe_append (tagSafe_append (tagSafe_append (by decide)
      hlangsafe) (by decide)) hsafe3) (by decide)

theorem manyRuns_greedy_head (p : Char → Bool) (s : List Char) :
    ∃ tl, manyRuns true p s = (s.takeWhile p, s.dropWhile p) :: tl := by
  induction s with
  | nil => exact ⟨[], rfl⟩
  | cons c t ih =>
    obtain ⟨tl, h⟩ := ih
    by_cases hp : p c = true
    · refine ⟨tl.map (fun r => (c :: r.1, r.2)) ++ [([], c :: t)], ?_⟩
      simp [manyRuns, hp, h, List.takeWhile, List.dropWhile]
    · have hp2 : p c = false := by simpa using hp
      exact ⟨[], by simp [manyRuns, hp2, List.takeWhile, List.dropWhile]⟩

theorem reBullet_eq : reBullet = .grp 1 (.seq
    (.seq (.chr '\n') (.seq (.chr '-') (.seq (.chr ' ') .eps))) (.grp 2 (.many true dot))) := rfl

/-- What `exec` reports for the bullet rule: the captured rest of the line is
the longest run without a line terminator. -/
theorem exec_reBullet {s : List Char} {m : Match} (h : reBullet.exec s = some m) :
    ∃ t, s = '\n' :: '-' :: ' ' :: t ∧ m.caps 2 = t.takeWhile dot
      ∧ m.rest = t.dropWhile dot ∧ m.text ≠ [] := by
  obtain ⟨a, ha, _, _, _⟩ := mem_matches_grp (mem_of_exec h)
  obtain ⟨l, hl, g, _, _, _, _⟩ := mem_matches_seq ha
  obtain ⟨e, _, _⟩ := mem_matches_lit "\n- ".data hl
  refine ⟨l.rest, e, ?_⟩
  rw [show s = '\n' :: '-' :: ' ' :: l.rest from e] at h
  obtain ⟨tl, htl⟩ := manyRuns_greedy_head dot l.rest
  simp [Re.exec, reBullet_eq, Re.matches, htl] at h
  subst h
  simp

theorem bullet_tagSafe (s : String) (hs : tagSafe tagOpeners s.data = true) :
    tagSafe tagOpeners (jsReplace reBullet
      (fun m => "<li>" ++ String.mk (m.caps 2) ++ "</li>") s).data = true := by
  refine jsReplace_tagSafe _ _ ?_ ?_ s hs
  · intro s2 m hm
    obtain ⟨t, e, _, _, hne⟩ := exec_reBullet hm
    refine ⟨hne, fun x t2 e2 => ?_⟩
    rw [e2] at e
    rw [(List.cons.inj e).1]
    decide
  · intro s2 m hs2 hm
    refine ⟨?_, exec_rest hm⟩
    obtain ⟨t, e, hcap, _, _⟩ := exec_reBullet hm
    have ht : tagSafe tagOpeners t = true := by
      rw [e] at hs2
      exact tagSafe_of_append_right (a := ['\n', '-', ' ']) hs2
    have hsafe : tagSafe tagOpeners (t.takeWhile dot) = true := by
      rw [← List.takeWhile_append_dropWhile dot t] at ht
      cases hd : t.dropWhile dot with
      | nil => simpa [hd] using ht
      | cons c b =>
        rw [hd] at ht
        have hc : dot c = false := by
          have := List.head_dropWhile_not dot t (by simp [hd])
          simpa [hd] using this
        refine tagSafe_before ht (lineTerminator_not_inner ?_)
        simpa [dot] using hc
    show tagSafe tagOpeners ("<li>" ++ String.mk (m.caps 2) ++ "</li>").data = true
    rw [String.data_append, String.data_append, hcap]
    exact tagSafe_append (tagSafe_append (by decide) hsafe) (by decide)

theorem listRun_tagSafe (s : String) (hs : tagSafe tagOpeners s.data = true) :
    tagSafe tagOpeners (jsReplace reListRun (fun m =>
      "<ul style=\"padding-left: 1.2rem; margin-top: 0.5rem; margin-bottom: 0.5rem;\">"
        ++ String.mk m.text ++ "</ul>") s).data = true := by
  refine jsReplace_tagSafe _ _ ?_ ?_ s hs
  · intro s2 m hm
    obtain ⟨a, ha, hat, har, _⟩ := mem_matches_grp (mem_of_exec hm)
    obtain ⟨h1, h2⟩ := seq_lit_start (c := '<') (l := ['l', 'i', '>']) ha
    exact ⟨hat ▸ h1, fun x t e => (h2 x t e) ▸ (by decide)⟩
  · intro s2 m hs2 hm
    refine ⟨?_, exec_rest hm⟩
    obtain ⟨a, ha, hat, har, _⟩ := mem_matches_grp (mem_of_exec hm)
    obtain ⟨l1, hl1, b, hb, hab, har2, _⟩ := mem_matches_seq ha
    obtain ⟨mid, hmid, l2, hl2, hbt, hbr, _⟩ := mem_matches_seq hb
    obtain ⟨e2, t2, _⟩ := mem_matches_lit "</li>".data hl2
    have e0 := matches_text_rest _ ha
    have hmid2 := matches_text_rest _ hmid
    have htext : a.text = (l1.text ++ mid.text) ++ "</li>".data := by
      rw [hab, hbt, t2, List.append_assoc]
    have hsafe : tagSafe tagOpeners m.text = true := by
      rw [hat, htext]
      refine tagSafe_append ?_ (by decide)
      rw [e0, htext, List.append_assoc] at hs2
      exact tagSafe_before (c := '<') (b := "/li>".data ++ a.rest) hs2 (by decide)
    show tagSafe tagOpeners ("<ul style=\"padding-left: 1.2rem; margin-top: 0.5rem; margin-bottom: 0.5rem;\">"
      ++ String.mk m.text ++ "</ul>").data = true
    rw [String.data_append, String.data_append]
    exact tagSafe_append (tagSafe_append (by decide) hsafe) (by decide)

theorem markdownToHtml_tagSafe (text : JVal) :
    tagSafe tagOpeners (markdownToHtml text).data = true := by
  unfold markdownToHtml
  refine jsReplace_const_tagSafe (Re.lit "</ul><br>".data) '<' _
    (fun _ _ _ h => lit_start h) (by decide) (by decide) _ ?_
  refine jsReplace_const_tagSafe (Re.lit "<br><br>".data) '<' _
    (fun _ _ _ h => lit_start h) (by decide) (by decide) _ ?_
  refine jsReplace_const_tagSafe (.chr '\n') '\n' _
    (fun _ _ _ h => chr_start h) (by decide) (by decide) _ ?_
  refine jsReplace_const_tagSafe (Re.lit "</ul>\n".data) '<' _
    (fun _ _ _ h => lit_start h) (by decide) (by decide) _ ?_
  exact listRun_tagSafe _ (bullet_tagSafe _ (inlineCode_tagSafe _ (italic_tagSafe _
    (bold_tagSafe _ (fence_tagSafe _ (escapeHTML_tagSafe _ text))))))

theorem createAssistantCard_tagSafe (text : JVal) :
    tagSafe tagOpeners (createAssistantCard text).data = true := by
  unfold createAssistantCard
  rw [String.data_append, String.data_append]
  exact tagSafe_append (tagSafe_append (by decide) (markdownToHtml_tagSafe text)) (by decide)

theorem tagOpeners_no_script :
    ∀ o ∈ tagOpeners, o.isPrefixOf ('<' :: "script".data) = false
      ∧ ('<' :: "script".data).isPrefixOf o = false := by decide

/-! ## Claim on the assistant card -/

/-- C5: for every string `t`, every `<` in the output of
`createAssistantCard(t)` begins a tag of one of the elements p, pre, code,
strong, em, li, ul, br, div, i (as `<name>`, `<name ` or `</name>`), and the
output does not contain `<script`. -/
theorem assistant_card_tags (t : String) :
    (∀ pre post : List Char, (createAssistantCard (.str t)).data = pre ++ '<' :: post →
      ∃ name ∈ tagNames, ∃ o ∈ openersOf name, o <+: '<' :: post)
    ∧ ¬ "<script".data <:+: (createAssistantCard (.str t)).data := by
  have h := createAssistantCard_tagSafe (.str t)
  refine ⟨?_, tagSafe_excludes h tagOpeners_no_script⟩
  intro pre post e
  obtain ⟨o, ho, hp⟩ := tagSafe_split h e
  obtain ⟨name, hname, ho2⟩ := List.mem_flatMap.mp ho
  exact ⟨name, hname, o, ho2, hp⟩

theorem assistant_card_tags_witness :
    ∃ name ∈ tagNames, ∃ o ∈ openersOf name, o <+: '<' :: "/p>\n    </div>".data :=
  (assistant_card_tags "").1
    "\n    <div class=\"chat-message assistant-message\">\n      <div class=\"d-flex align-items-center mb-2\">\n        <i class=\"bi bi-robot me-2\" style=\"font-size: 1.2rem; color: #0d6efd;\"></i>\n        <strong class=\"fs-6\" style=\"color: #0d6efd;\">Assistant</strong>\n      </div>\n      <p style=\"white-space: pre-wrap; word-wrap: break-word; margin-bottom: 0;\">".data
    "/p>\n    </div>".data rfl

/-! ## Navigation: lemmas -/

theorem renderStep_fields {P : Platform} {v v2 : Viewer} {index : Int}
    (h : renderStep P v index = .ok v2) :
    v2.steps = v.steps ∧ v2.currentStep = v.currentStep ∧ v2.allMessages = v.allMessages
      ∧ v2.dom.counterText = v.dom.counterText ∧ v2.dom.prevDisabled = v.dom.prevDisabled
      ∧ v2.dom.nextDisabled = v.dom.nextDisabled := by
  unfold renderStep at h
  split at h
  · simp only [pure, Except.pure, Except.ok.injEq] at h
    subst h
    simp
  · simp only [bind, Except.bind] at h
    split at h
    · cases h
    · simp only [pure, Except.pure, Except.ok.injEq] at h
      subst h
      simp

theorem navigate_eq (P : Platform) (direction : Int) (v : Viewer) :
    navigate P direction v =
      if 0 ≤ v.currentStep + direction ∧ v.currentStep + direction < (v.steps.length : Int) then
        match renderStep P { v with currentStep := v.currentStep + direction }
            (v.currentStep + direction) with
        | .error e => ⟨{ v with currentStep := v.currentStep + direction }, some e⟩
        | .ok v2 => ⟨updateNavState v2, none⟩
      else ⟨v, none⟩ := by
  unfold navigate
  by_cases h0 : 0 ≤ v.currentStep + direction
  · by_cases h1 : v.currentStep + direction < (v.steps.length : Int)
    · simp only [ge_iff_le, h0, h1, decide_True, Bool.and_self, if_true, and_self]
    · simp [h0, h1]
  · simp [h0]

theorem navigate_steps (P : Platform) (direction : Int) (v : Viewer) :
    (navigate P direction v).state.steps = v.steps := by
  rw [navigate_eq]
  split
  · cases hr : renderStep P { v with currentStep := v.currentStep + direction }
        (v.currentStep + direction) with
    | error e => rfl
    | ok v2 => simpa [updateNavState] using (renderStep_fields hr).1
  · rfl

theorem navigate_cursor (P : Platform) (direction : Int) (v : Viewer) :
    (navigate P direction v).state.currentStep =
      if 0 ≤ v.currentStep + direction ∧ v.currentStep + direction < (v.steps.length : Int)
      then v.currentStep + direction else v.currentStep := by
  rw [navigate_eq]
  split
  · cases hr : renderStep P { v with currentStep := v.currentStep + direction }
        (v.currentStep + direction) with
    | error e => rfl
    | ok v2 => simpa [updateNavState] using (renderStep_fields hr).2.1
  · rfl

theorem navigate_cursorOk (P : Platform) (direction : Int) (v : Viewer) (h : cursorOk v) :
    cursorOk (navigate P direction v).state := by
  unfold cursorOk
  rw [navigate_steps, navigate_cursor]
  split
  · next hc => right; omega
  · exact h

theorem runRequests_cursorOk (P : Platform) (reqs : List Request) :
    ∀ v : Viewer, cursorOk v → cursorOk (runRequests P reqs v) := by
  induction reqs with
  | nil => intro v h; exact h
  | cons r rest ih => intro v h; exact ih _ (navigate_cursorOk P _ v h)

theorem runRequests_steps (P : Platform) (reqs : List Request) :
    ∀ v : Viewer, (runRequests P reqs v).steps = v.steps := by
  induction reqs with
  | nil => intro v; rfl
  | cons r rest ih => intro v; rw [runRequests, ih, navigate_steps]

theorem loadMessages_not_nullish (P : Platform) (text : String) :
    ∀ m ∈ loadMessages P text, m.isNullish = false :=
  fun m hm => keepMessage_not_nullish m (List.mem_filter.mp hm).2

theorem groupMessagesIntoSteps_loaded (P : Platform) (text : String) :
    ∃ steps, groupMessagesIntoSteps (loadMessages P text) = (steps, none) := by
  obtain ⟨turns, h, _⟩ := groupLoop_spec (loadMessages P text).length _ [] le_rfl
    (loadMessages_not_nullish P text)
  exact ⟨turns, by simpa [groupMessagesIntoSteps] using h⟩

theorem init_cursorOk (P : Platform) (fetched : Fetched) (dom : Dom) :
    cursorOk (init P fetched (Viewer.initial dom)) := by
  cases fetched with
  | failed message => left; exact ⟨rfl, rfl⟩
  | status code => left; exact ⟨rfl, rfl⟩
  | body text =>
    obtain ⟨steps, hs⟩ := groupMessagesIntoSteps_loaded P text
    simp only [init, hs]
    split
    · next hpos =>
      right
      split
      · simp [showLoadError]
        have : 0 < steps.length := by simpa using hpos
        omega
      · next v4 h4 =>
        have hf := renderStep_fields h4
        simp only [updateNavState, hf.1, hf.2.1]
        have : 0 < steps.length := by simpa using hpos
        simp
        omega
    · next hpos =>
      left
      have : steps = [] := by
        cases steps with
        | nil => rfl
        | cons a b => simp at hpos
      subst this
      exact ⟨rfl, rfl⟩

/-! ## Claims on the cursor and the navigation controls -/

/-- C6, as stated, fails: after loading the empty file the cursor is `-1`, which
is not in `[0, steps.length - 1]`. -/
theorem cursor_range_counterexample :
    (init examplePlatform (.body "") (Viewer.initial examplePage)).currentStep = -1
    ∧ ¬ (0 ≤ (init examplePlatform (.body "") (Viewer.initial examplePage)).currentStep
      ∧ (init examplePlatform (.body "") (Viewer.initial examplePage)).currentStep
        ≤ ((init examplePlatform (.body "") (Viewer.initial examplePage)).steps.length : Int)
          - 1) := by
  decide

/-- C6, amended: the cursor is `-1` before the load; after the load and any
sequence of next and previous requests it lies in `[0, steps.length - 1]` when
there is at least one turn, and is `-1` when there is none. -/
theorem cursor_range (P : Platform) (fetched : Fetched) (dom : Dom) (reqs : List Request) :
    (Viewer.initial dom).currentStep = -1
    ∧ (0 < (runRequests P reqs (init P fetched (Viewer.initial dom))).steps.length →
        0 ≤ (runRequests P reqs (init P fetched (Viewer.initial dom))).currentStep
        ∧ (runRequests P reqs (init P fetched (Viewer.initial dom))).currentStep
          ≤ ((runRequests P reqs (init P fetched (Viewer.initial dom))).steps.length : Int) - 1)
    ∧ ((runRequests P reqs (init P fetched (Viewer.initial dom))).steps.length = 0 →
        (runRequests P reqs (init P fetched (Viewer.initial dom))).currentStep = -1) := by
  have h := runRequests_cursorOk P reqs _ (init_cursorOk P fetched dom)
  refine ⟨rfl, ?_, ?_⟩
  · intro hpos
    rcases h with ⟨h1, _⟩ | h
    · rw [h1] at hpos
      exact absurd hpos (by simp)
    · exact h
  · intro hz
    rcases h with ⟨_, h2⟩ | h
    · exact h2
    · omega

theorem cursor_range_witness :
    0 ≤ (runRequests examplePlatform [.next, .next, .previous]
          (init examplePlatform (.body scenarioText) (Viewer.initial examplePage))).currentStep
    ∧ (runRequests examplePlatform [.next, .next, .previous]
          (init examplePlatform (.body scenarioText) (Viewer.initial examplePage))).currentStep
      ≤ ((runRequests examplePlatform [.next, .next, .previous]
          (init examplePlatform (.body scenarioText)
            (Viewer.initial examplePage))).steps.length : Int) - 1 :=
  (cursor_range examplePlatform (.body scenarioText) examplePage
    [.next, .next, .previous]).2.1 (by decide)

/-- C7: in a state with the cursor in `[0, N - 1]` (so that `N ≥ 1`),
`navigate(-1)` at cursor 0 and `navigate(1)` at cursor `N - 1` return without
an exception in the state they started from; at every other cursor `c`,
`navigate(1)` sets the cursor to `c + 1` and `navigate(-1)` to `c - 1`. -/
theorem navigate_bounds (P : Platform) (v : Viewer)
    (h0 : 0 ≤ v.currentStep) (h1 : v.currentStep ≤ (v.steps.length : Int) - 1) :
    (v.currentStep = 0 → navigate P (-1) v = ⟨v, none⟩)
    ∧ (v.currentStep = (v.steps.length : Int) - 1 → navigate P 1 v = ⟨v, none⟩)
    ∧ (v.currentStep ≠ (v.steps.length : Int) - 1 →
        (navigate P 1 v).state.currentStep = v.currentStep + 1)
    ∧ (v.currentStep ≠ 0 → (navigate P (-1) v).state.currentStep = v.currentStep - 1) := by
  refine ⟨?_, ?_, ?_, ?_⟩
  · intro hc
    rw [navigate_eq, if_neg]
    omega
  · intro hc
    rw [navigate_eq, if_neg]
    omega
  · intro hc
    rw [navigate_cursor, if_pos]
    omega
  · intro hc
    rw [navigate_cursor, if_pos]
    · rfl
    · omega

theorem navigate_bounds_witness :
    (navigate examplePlatform 1
        (init examplePlatform (.body scenarioText) (Viewer.initial examplePage))).state.currentStep
      = (init examplePlatform (.body scenarioText) (Viewer.initial examplePage)).currentStep + 1 :=
  (navigate_bounds examplePlatform
    (init examplePlatform (.body scenarioText) (Viewer.initial examplePage))
    (by decide) (by decide)).2.2.1 (by decide)

theorem updateNavState_navShown (v : Viewer) (h0 : 0 ≤ v.currentStep)
    (h1 : v.currentStep ≤ (v.steps.length : Int) - 1) : navShown (updateNavState v) := by
  refine ⟨?_, ?_, rfl⟩
  · show decide (v.currentStep ≤ 0) = decide (v.currentStep = 0)
    by_cases h : v.currentStep = 0
    · simp [h]
    · have : ¬ v.currentStep ≤ 0 := by omega
      simp [h, this]
  · show decide (v.currentStep ≥ (v.steps.length : Int) - 1)
      = decide (v.currentStep = (v.steps.length : Int) - 1)
    by_cases h : v.currentStep = (v.steps.length : Int) - 1
    · simp [h]
    · have : ¬ v.currentStep ≥ (v.steps.length : Int) - 1 := by omega
      simp only [h, this, decide_False]

theorem renderStep_of_cards (P : Platform) (v : Viewer) (index : Int) {cards : List String}
    (h0 : 0 ≤ index) (h1 : index < (v.steps.length : Int))
    (hc : (v.steps.getD index.toNat []).mapM (createCardHtml P) = .ok cards) :
    renderStep P v index
      = .ok { v with dom := { v.dom with contentHtml := String.join cards } } := by
  unfold renderStep
  have hb : (decide (index < 0) || decide (index ≥ (v.steps.length : Int))) = false := by
    rw [Bool.or_eq_false_iff]
    constructor
    · simpa using h0
    · simpa using h1
  simp only [hb, hc, bind, Except.bind, pure, Except.pure]
  rfl

theorem init_body_steps (P : Platform) (text : String) (dom : Dom) (steps : List (List JVal))
    (hs : groupMessagesIntoSteps (loadMessages P text) = (steps, none)) :
    (init P (.body text) (Viewer.initial dom)).steps = steps := by
  simp only [init, hs]
  split
  · cases hr : renderStep P
        { allMessages := loadMessages P text, steps := steps, currentStep := 0,
          dom := (Viewer.initial dom).dom } 0 with
    | error e => rfl
    | ok v4 => simpa [updateNavState] using (renderStep_fields hr).1
  · rfl

/-- C8: after the initial render of a transcript with at least one turn (every
card of the first turn rendered), and after every `navigate` that moves the
cursor and returns without an exception, `previous` is disabled exactly when the
cursor is 0, `next` exactly when it is `N - 1`, and the counter reads
`Turn c+1 of N`. -/
theorem nav_state_shown :
    (∀ (P : Platform) (text : String) (dom : Dom) (cards : List String),
      0 < (init P (.body text) (Viewer.initial dom)).steps.length →
      ((init P (.body text) (Viewer.initial dom)).steps.getD 0 []).mapM (createCardHtml P)
        = .ok cards →
      navShown (init P (.body text) (Viewer.initial dom)))
    ∧ (∀ (P : Platform) (direction : Int) (v v2 : Viewer),
      0 ≤ v.currentStep + direction → v.currentStep + direction < (v.steps.length : Int) →
      navigate P direction v = ⟨v2, none⟩ → navShown v2) := by
  constructor
  · intro P text dom cards hpos hcards
    obtain ⟨steps, hs⟩ := groupMessagesIntoSteps_loaded P text
    rw [init_body_steps P text dom steps hs] at hpos hcards
    have hr := renderStep_of_cards P
      { allMessages := loadMessages P text, steps := steps, currentStep := 0,
        dom := (Viewer.initial dom).dom }
      0 le_rfl (by simpa using hpos) hcards
    have hgt : steps.length > 0 := hpos
    simp only [init, hs, hgt, if_true, hr]
    refine ⟨?_, ?_, rfl⟩
    · rfl
    · show decide ((0 : Int) ≥ (steps.length : Int) - 1) = decide ((0 : Int) = (steps.length : Int) - 1)
      by_cases h : (0 : Int) = (steps.length : Int) - 1
      · simp [← h]
      · have : ¬ (0 : Int) ≥ (steps.length : Int) - 1 := by omega
        simp only [h, this, decide_False]
  · intro P direction v v2 h0 h1 h
    rw [navigate_eq, if_pos ⟨h0, h1⟩] at h
    cases hr : renderStep P { v with currentStep := v.currentStep + direction }
        (v.currentStep + direction) with
    | error e => simp [hr] at h
    | ok v3 =>
      simp only [hr, Outcome.mk.injEq, and_true] at h
      subst h
      have hf := renderStep_fields hr
      refine updateNavState_navShown v3 ?_ ?_
      · rw [hf.2.1]; exact h0
      · rw [hf.2.1, hf.1]; simp only; omega

theorem nav_state_shown_witness :
    navShown (init examplePlatform (.body scenarioText) (Viewer.initial examplePage)) :=
  nav_state_shown.1 examplePlatform scenarioText examplePage _ (by decide) rfl

/-! ## Claims on rendering and on the empty transcript -/

/-- C9 at the decoded line `{"type":"tool_use"}`: the loader's filter keeps the
event, the grouper puts it in a turn, and `createCardHtml` throws a `TypeError`
on it (reading `content` of the missing `message`), whereas the thinking branch
renders the event `{"type":"thinking"}`, which has no `message` either. -/
theorem bare_tool_use_throws :
    keepMessage bareToolUse = true
    ∧ groupMessagesIntoSteps [scenarioHi, bareToolUse] = ([[scenarioHi, bareToolUse]], none)
    ∧ (∀ P : Platform, createCardHtml P bareToolUse = .error .typeError)
    ∧ (∀ P : Platform, ∃ frag, createCardHtml P bareThinking = .ok frag) :=
  ⟨rfl, rfl, fun _ => rfl, fun _ => ⟨_, rfl⟩⟩

/-- C10, as stated, fails: after loading the empty file on a page whose buttons
are enabled, there is no turn and the counter shows the message, but both
buttons are still enabled. -/
theorem empty_transcript_counterexample :
    (init examplePlatform (.body "") (Viewer.initial examplePage)).steps.length = 0
    ∧ (init examplePlatform (.body "") (Viewer.initial examplePage)).dom.counterText
        = "No steps found in file."
    ∧ (init examplePlatform (.body "") (Viewer.initial examplePage)).dom.prevDisabled = false
    ∧ (init examplePlatform (.body "") (Viewer.initial examplePage)).dom.nextDisabled = false := by
  decide

/-- C10, amended: when no line of the transcript decodes to an event that the
filter keeps, loading gives zero turns and the counter `No steps found in
file.`, leaves the `disabled` flags of both buttons as the page had them, and
a next or a previous request then returns in the state it started from. -/
theorem empty_transcript (P : Platform) (text : String) (dom : Dom)
    (h : ∀ line ∈ splitLines (jsTrim text.data),
      keepMessage ((P.jsonParse (String.mk line)).getD .null) = false) :
    (init P (.body text) (Viewer.initial dom)).steps = []
    ∧ (init P (.body text) (Viewer.initial dom)).dom.counterText = "No steps found in file."
    ∧ (init P (.body text) (Viewer.initial dom)).dom.prevDisabled = dom.prevDisabled
    ∧ (init P (.body text) (Viewer.initial dom)).dom.nextDisabled = dom.nextDisabled
    ∧ ∀ r : Request, navigate P r.direction (init P (.body text) (Viewer.initial dom))
        = ⟨init P (.body text) (Viewer.initial dom), none⟩ := by
  have hload : loadMessages P text = [] := by
    unfold loadMessages
    rw [List.filter_eq_nil_iff]
    intro a ha
    obtain ⟨line, hl, rfl⟩ := List.mem_map.mp ha
    simp [h line hl]
  have hinit : init P (.body text) (Viewer.initial dom)
      = { allMessages := [], steps := [], currentStep := -1,
          dom := { dom with counterText := "No steps found in file.", loadingDisplay := "none" } } := by
    simp only [init, hload]
    rfl
  rw [hinit]
  refine ⟨rfl, rfl, rfl, rfl, ?_⟩
  intro r
  rw [navigate_eq, if_neg]
  cases r <;> simp [Request.direction]

theorem empty_transcript_witness :
    (init examplePlatform (.body "not json\n") (Viewer.initial examplePage)).steps = []
    ∧ (init examplePlatform (.body "not json\n") (Viewer.initial examplePage)).dom.counterText
        = "No steps found in file."
    ∧ (init examplePlatform (.body "not json\n") (Viewer.initial examplePage)).dom.prevDisabled
        = examplePage.prevDisabled
    ∧ (init examplePlatform (.body "not json\n") (Viewer.initial examplePage)).dom.nextDisabled
        = examplePage.nextDisabled
    ∧ ∀ r : Request, navigate examplePlatform r.direction
          (init examplePlatform (.body "not json\n") (Viewer.initial examplePage))
        = ⟨init examplePlatform (.body "not json\n") (Viewer.initial examplePage), none⟩ :=
  empty_transcript examplePlatform "not json\n" examplePage (by decide)

/-! ## Grouping in closed form -/

theorem turnsOf_dropWhile (l : List JVal) :
    turnsOf (l.dropWhile (fun m => !isUser m)) = turnsOf l := by
  induction l with
  | nil => rfl
  | cons a l ih =>
    by_cases h : isUser a = true
    · simp [List.dropWhile, h]
    · have h2 : isUser a = false := by simpa using h
      simp [List.dropWhile, h2, turnsOf, ih]

/-- The loops of `groupMessagesIntoSteps` push the turns of `turnsOf`. -/
theorem groupLoop_turnsOf : ∀ (fuel : Nat) (msgs : List JVal) (steps : List (List JVal)),
    msgs.length ≤ fuel → (∀ m ∈ msgs, m.isNullish = false) →
    groupLoop fuel msgs steps = (steps ++ turnsOf msgs, none) := by
  intro fuel
  induction fuel with
  | zero =>
    intro msgs steps hlen _
    have : msgs = [] := List.length_eq_zero.mp (Nat.le_zero.mp hlen)
    subst this
    simp [groupLoop, turnsOf]
  | succ fuel ih =>
    intro msgs steps hlen hnn
    cases msgs with
    | nil => simp [groupLoop, turnsOf]
    | cons msg rest =>
      have hm : msg.isNullish = false := hnn msg (List.mem_cons_self _ _)
      have hrest : ∀ x ∈ rest, x.isNullish = false :=
        fun x hx => hnn x (List.mem_cons_of_mem _ hx)
      have hlen2 : rest.length ≤ fuel := by simpa using hlen
      rw [groupLoop, roleOf_ok msg hm]
      by_cases hu : isUser msg = true
      · have hu2 : ((msg.prop "message").optGet "role").isStr "user" = true := hu
        have hd : (rest.dropWhile (fun m => !isUser m)).length ≤ fuel :=
          le_trans ((List.dropWhile_sublist _).length_le) hlen2
        have hdn : ∀ x ∈ rest.dropWhile (fun m => !isUser m), x.isNullish = false :=
          fun x hx => hrest x ((List.dropWhile_sublist _).subset hx)
        simp only [hu2, if_true, absorbTurn_eq rest [msg] hrest]
        rw [ih _ _ hd hdn, turnsOf_dropWhile]
        simp [turnsOf, hu]
      · have hu3 : isUser msg = false := by simpa using hu
        have hu2 : ((msg.prop "message").optGet "role").isStr "user" = false := hu3
        simp only [hu2]
        rw [ih rest steps hlen2 hrest]
        simp [turnsOf, hu3]

theorem groupMessagesIntoSteps_turnsOf (msgs : List JVal)
    (h : ∀ m ∈ msgs, m.isNullish = false) :
    groupMessagesIntoSteps msgs = (turnsOf msgs, none) := by
  simpa [groupMessagesIntoSteps] using groupLoop_turnsOf msgs.length msgs [] le_rfl h

theorem turnsOf_cons (m : JVal) (rest : List JVal) :
    turnsOf (m :: rest) =
      if isUser m then
        (m :: (rest.takeWhile (fun x => !isUser x)).filter isAccepted) :: turnsOf rest
      else turnsOf rest := rfl

theorem takeWhile_filter_skip (xs ys : List JVal) (e : JVal)
    (hu : isUser e = false) (ha : isAccepted e = false) :
    ((xs ++ e :: ys).takeWhile (fun x => !isUser x)).filter isAccepted
      = ((xs ++ ys).takeWhile (fun x => !isUser x)).filter isAccepted := by
  induction xs with
  | nil => simp [List.takeWhile, hu, ha]
  | cons x xs ih =>
    rw [List.cons_append, List.cons_append, List.takeWhile_cons, List.takeWhile_cons]
    by_cases hx : isUser x = true
    · simp [hx]
    · have hx2 : isUser x = false := by simpa using hx
      simp only [hx2, Bool.not_false, if_true, List.filter_cons, ih]

theorem turnsOf_skip (xs ys : List JVal) (e : JVal)
    (hu : isUser e = false) (ha : isAccepted e = false) :
    turnsOf (xs ++ e :: ys) = turnsOf (xs ++ ys) := by
  induction xs with
  | nil => simp [turnsOf, hu]
  | cons x xs ih =>
    rw [List.cons_append, List.cons_append, turnsOf_cons, turnsOf_cons, ih,
      takeWhile_filter_skip xs ys e hu ha]

theorem takeWhile_filter_user (xs ys : List JVal) (e : JVal) (hu : isUser e = true) :
    ((xs ++ e :: ys).takeWhile (fun x => !isUser x)).filter isAccepted
      = (xs.takeWhile (fun x => !isUser x)).filter isAccepted := by
  induction xs with
  | nil => simp [List.takeWhile, hu]
  | cons x xs ih =>
    rw [List.cons_append, List.takeWhile_cons, List.takeWhile_cons]
    by_cases hx : isUser x = true
    · simp [hx]
    · have hx2 : isUser x = false := by simpa using hx
      simp only [hx2, Bool.not_false, if_true, List.filter_cons, ih]

theorem turnsOf_user (xs ys : List JVal) (e : JVal) (hu : isUser e = true) :
    turnsOf (xs ++ e :: ys)
      = turnsOf xs ++ (e :: (ys.takeWhile (fun x => !isUser x)).filter isAccepted)
          :: turnsOf ys := by
  induction xs with
  | nil => simp [turnsOf, hu]
  | cons x xs ih =>
    rw [List.cons_append, turnsOf_cons, turnsOf_cons, ih, takeWhile_filter_user xs ys e hu]
    by_cases hx : isUser x = true
    · simp [hx]
    · have hx2 : isUser x = false := by simpa using hx
      simp [hx2]

/-! ## Further claims on loading and grouping -/

/-- C11: when `JSON.parse` throws on the line `l`, loading the lines
`xs ++ [l] ++ ys` gives the same retained events as loading `xs ++ ys`, the
grouping of either returns the same turns without an exception, and `init`
leaves the same state. -/
theorem malformed_line_dropped (P : Platform) (text text2 : String)
    (xs ys : List (List Char)) (l : List Char)
    (h1 : splitLines (jsTrim text.data) = xs ++ [l] ++ ys)
    (h2 : splitLines (jsTrim text2.data) = xs ++ ys)
    (hl : P.jsonParse (String.mk l) = none) :
    loadMessages P text = loadMessages P text2
    ∧ (∃ steps, groupMessagesIntoSteps (loadMessages P text) = (steps, none)
        ∧ groupMessagesIntoSteps (loadMessages P text2) = (steps, none))
    ∧ ∀ v : Viewer, init P (.body text) v = init P (.body text2) v := by
  have hload : loadMessages P text = loadMessages P text2 := by
    unfold loadMessages
    rw [h1, h2]
    simp [List.filter_append, hl, keepMessage, JVal.truthy]
  refine ⟨hload, ?_, ?_⟩
  · obtain ⟨steps, hs⟩ := groupMessagesIntoSteps_loaded P text2
    exact ⟨steps, hload ▸ hs, hs⟩
  · intro v
    simp only [init, hload]

theorem malformed_line_dropped_witness :
    loadMessages examplePlatform
        "\x7b\"message\":\x7b\"role\":\"user\",\"content\":\"hi\"\x7d\x7d\nnot json\n\x7b\"message\":\x7b\"role\":\"user\",\"content\":\"bye\"\x7d\x7d"
      = loadMessages examplePlatform
        "\x7b\"message\":\x7b\"role\":\"user\",\"content\":\"hi\"\x7d\x7d\n\x7b\"message\":\x7b\"role\":\"user\",\"content\":\"bye\"\x7d\x7d" :=
  (malformed_line_dropped examplePlatform _ _
    ["\x7b\"message\":\x7b\"role\":\"user\",\"content\":\"hi\"\x7d\x7d".data]
    ["\x7b\"message\":\x7b\"role\":\"user\",\"content\":\"bye\"\x7d\x7d".data]
    "not json".data (by decide) (by decide) rfl).1

/-- C12: an event that is neither a user event nor accepted by the grouper
(type `thinking`, `tool_use`, `tool_result`, or role `assistant`) is skipped:
grouping `xs ++ [e] ++ ys` returns the turns of `xs ++ ys`. -/
theorem unaccepted_event_skipped (xs ys : List JVal) (e : JVal)
    (hxs : ∀ m ∈ xs, m.isNullish = false) (hys : ∀ m ∈ ys, m.isNullish = false)
    (he : e.isNullish = false) (hu : isUser e = false) (ha : isAccepted e = false) :
    ∃ steps, groupMessagesIntoSteps (xs ++ [e] ++ ys) = (steps, none)
      ∧ groupMessagesIntoSteps (xs ++ ys) = (steps, none) := by
  have h1 : ∀ m ∈ xs ++ [e] ++ ys, m.isNullish = false := by
    intro m hm
    simp only [List.mem_append, List.mem_singleton] at hm
    rcases hm with (hm | rfl) | hm
    · exact hxs m hm
    · exact he
    · exact hys m hm
  have h2 : ∀ m ∈ xs ++ ys, m.isNullish = false := by
    intro m hm
    rcases List.mem_append.mp hm with hm | hm
    · exact hxs m hm
    · exact hys m hm
  refine ⟨turnsOf (xs ++ ys), ?_, groupMessagesIntoSteps_turnsOf _ h2⟩
  rw [groupMessagesIntoSteps_turnsOf _ h1, List.append_assoc, List.singleton_append,
    turnsOf_skip xs ys e hu ha]

theorem unaccepted_event_skipped_witness :
    ∃ steps, groupMessagesIntoSteps ([scenarioHi, scenarioThinking] ++ [systemNote]
          ++ [scenarioHello, scenarioBye]) = (steps, none)
      ∧ groupMessagesIntoSteps ([scenarioHi, scenarioThinking] ++ [scenarioHello, scenarioBye])
          = (steps, none) :=
  unaccepted_event_skipped [scenarioHi, scenarioThinking] [scenarioHello, scenarioBye] systemNote
    (by decide) (by decide) rfl rfl rfl

/-- C18: for every event list (no entry `null` or `undefined`) the turns,
concatenated, are the list without its longest prefix free of user events,
filtered to the events with role `user` or `assistant` or type `thinking`,
`tool_use` or `tool_result`; in particular a subsequence of the list. -/
theorem group_concat_subsequence (xs : List JVal) (h : ∀ m ∈ xs, m.isNullish = false) :
    ∃ steps, groupMessagesIntoSteps xs = (steps, none)
      ∧ steps.flatten = (xs.dropWhile (fun m => !isUser m)).filter
          (fun m => isUser m || isAccepted m)
      ∧ steps.flatten.Sublist xs := by
  obtain ⟨turns, h1, h2, _, _⟩ := groupLoop_spec xs.length xs [] le_rfl h
  refine ⟨turns, by simpa [groupMessagesIntoSteps] using h1, h2, ?_⟩
  rw [h2]
  exact (List.filter_sublist _).trans (List.dropWhile_sublist _)

theorem group_concat_subsequence_witness :
    ∃ steps, groupMessagesIntoSteps [scenarioThinking, scenarioHi, systemNote, scenarioHello]
        = (steps, none)
      ∧ steps.flatten = ([scenarioThinking, scenarioHi, systemNote, scenarioHello].dropWhile
          (fun m => !isUser m)).filter (fun m => isUser m || isAccepted m)
      ∧ steps.flatten.Sublist [scenarioThinking, scenarioHi, systemNote, scenarioHello] :=
  group_concat_subsequence [scenarioThinking, scenarioHi, systemNote, scenarioHello] (by decide)

/-! ## Rendering one event: the branches of `createCardHtml` -/

theorem isStr_of_isStr {v : JVal} {a b : String} (h : v.isStr a = true) (hab : a ≠ b) :
    v.isStr b = false := by
  cases v <;> simp_all [JVal.isStr]

/-- The user branch (lines 113-115). -/
theorem createCardHtml_user (P : Platform) (msg : JVal) (hn : msg.isNullish = false)
    (hu : isUser msg = true)
    (hc : ((msg.prop "message").optGet "content").truthy = true) :
    createCardHtml P msg = createUserCard ((msg.prop "message").optGet "content") := by
  have hu2 : ((msg.prop "message").optGet "role").isStr "user" = true := hu
  simp [createCardHtml, get_ok _ _ hn, bind, Except.bind, hu2, hc]

/-- The assistant branch (lines 116-119). -/
theorem createCardHtml_assistant (P : Platform) (msg : JVal) (hn : msg.isNullish = false)
    (ha : ((msg.prop "message").optGet "role").isStr "assistant" = true) :
    createCardHtml P msg =
      (findTextPart ((msg.prop "message").optGet "content")).bind (fun textPart =>
        if textPart.truthy then (textPart.get "text").bind (fun text =>
          pure (createAssistantCard text))
        else pure "") := by
  have hu : ((msg.prop "message").optGet "role").isStr "user" = false :=
    isStr_of_isStr ha (by decide)
  simp only [createCardHtml, get_ok _ _ hn, bind, Except.bind, hu, ha, Bool.false_and]
  rfl

/-- The thinking branch (lines 120-123). -/
theorem createCardHtml_thinking (P : Platform) (msg : JVal) (hn : msg.isNullish = false)
    (hu : ((msg.prop "message").optGet "role").isStr "user" = false)
    (ha : ((msg.prop "message").optGet "role").isStr "assistant" = false)
    (ht : (msg.prop "type").isStr "thinking" = true) :
    createCardHtml P msg =
      createCollapsedCard "💭 Thinking..."
        (if ((((msg.prop "message").optGet "content").optGet "0").optGet "thinking").truthy
          then (((msg.prop "message").optGet "content").optGet "0").optGet "thinking"
          else if ((msg.prop "message").optGet "content").isString
            then (msg.prop "message").optGet "content" else .str "Thinking...")
        "plaintext" (.bool false) := by
  simp only [createCardHtml, get_ok _ _ hn, bind, Except.bind, hu, ha, ht, Bool.false_and]
  rfl

/-- The tool-result branch (lines 128-133) on an event with a first content
part. -/
theorem createCardHtml_toolResult (P : Platform) (msg : JVal) (hn : msg.isNullish = false)
    (hu : ((msg.prop "message").optGet "role").isStr "user" = false)
    (ha : ((msg.prop "message").optGet "role").isStr "assistant" = false)
    (ht : (msg.prop "type").isStr "tool_result" = true)
    (hm : (msg.prop "message").isNullish = false)
    (hc : ((msg.prop "message").prop "content").isNullish = false)
    (hp : (((msg.prop "message").prop "content").prop "0").isNullish = false) :
    createCardHtml P msg =
      createCollapsedCard
        (if ((((msg.prop "message").prop "content").prop "0").prop "is_error").truthy
          then "🧰 Tool Error" else "🧰 Tool Result")
        ((((msg.prop "message").prop "content").prop "0").prop "content") "bash"
        (if ((((msg.prop "message").prop "content").prop "0").prop "is_error").truthy
          then (((msg.prop "message").prop "content").prop "0").prop "is_error"
          else .bool false) := by
  have ht1 : (msg.prop "type").isStr "thinking" = false := isStr_of_isStr ht (by decide)
  have ht2 : (msg.prop "type").isStr "tool_use" = false := isStr_of_isStr ht (by decide)
  simp only [createCardHtml, get_ok _ _ hn, get_ok _ _ hm, get_ok _ _ hc, get_ok _ _ hp,
    bind, Except.bind, hu, ha, ht, ht1, ht2, Bool.false_and]
  by_cases hf : ((((msg.prop "message").prop "content").prop "0").prop "is_error").truthy = true
  · simp [hf]
  · have hf2 : ((((msg.prop "message").prop "content").prop "0").prop "is_error").truthy
        = false := by simpa using hf
    simp only [hf2, Bool.false_eq_true, if_false]
    rfl

theorem createUserCard_ok (content : JVal) (text : String) (h : jsString content = .ok text) :
    createUserCard content = .ok
      ("\n    <div class=\"chat-message user-message\">\n      <div class=\"d-flex align-items-center mb-2\">\n        <i class=\"bi bi-person-fill me-2\" style=\"font-size: 1.2rem;\"></i>\n        <strong class=\"fs-6\">User</strong>\n      </div>\n      <pre style=\"white-space: pre-wrap; word-wrap: break-word; margin: 0; font-family: var(--font-monospace); font-size: 0.9rem;\"><code>"
        ++ escapeHTML (.str text) ++ "</code></pre>\n    </div>") := by
  simp only [createUserCard, h, bind, Except.bind, pure, Except.pure]

theorem createCollapsedCard_ok (title lang : String) (content isError : JVal) (text : String)
    (h : jsString content = .ok text) :
    createCollapsedCard title content lang isError = .ok
      ("\n    <div class=\"collapsed-message " ++ (if isError.truthy then "is-error" else "")
        ++ "\">\n      <details>\n        <summary>" ++ escapeHTML (.str title)
        ++ "</summary>\n        <div class=\"tool-result "
        ++ (if isError.truthy then "is-error" else "")
        ++ "\">\n          <pre><code class=\"language-" ++ lang ++ "\">"
        ++ escapeHTML (.str text)
        ++ "</code></pre>\n        </div>\n      </details>\n    </div>") := by
  simp only [createCollapsedCard, h, bind, Except.bind, pure, Except.pure]

theorem isText_truthy {p : JVal} (h : (p.prop "type").isStr "text" = true) :
    p.truthy = true ∧ p.isNullish = false := by
  cases p with
  | obj fields => exact ⟨rfl, rfl⟩
  | arr xs =>
    have : (JVal.arr xs).prop "type" = .undefined := by
      simp only [JVal.prop]
      rw [if_neg (by decide)]
    rw [this] at h
    exact absurd h (by decide)
  | str s =>
    have : (JVal.str s).prop "type" = .undefined := by
      simp only [JVal.prop]
      rw [if_neg (by decide)]
    rw [this] at h
    exact absurd h (by decide)
  | _ => simp [JVal.prop, JVal.isStr] at h

theorem exists_first_text : ∀ (parts : List JVal),
    (∃ q ∈ parts, (q.prop "type").isStr "text" = true) →
    ∃ pre p post, parts = pre ++ p :: post ∧ (p.prop "type").isStr "text" = true
      ∧ ∀ q ∈ pre, (q.prop "type").isStr "text" = false := by
  intro parts
  induction parts with
  | nil => rintro ⟨q, hq, _⟩; simp at hq
  | cons a rest ih =>
    rintro ⟨q, hq, hq2⟩
    by_cases ha : (a.prop "type").isStr "text" = true
    · exact ⟨[], a, rest, rfl, ha, by simp⟩
    · have ha2 : (a.prop "type").isStr "text" = false := by simpa using ha
      have hrest : ∃ q ∈ rest, (q.prop "type").isStr "text" = true := by
        rcases List.mem_cons.mp hq with rfl | hq
        · exact absurd hq2 ha
        · exact ⟨q, hq, hq2⟩
      obtain ⟨pre, p, post, e, hp, hpre⟩ := ih hrest
      refine ⟨a :: pre, p, post, by simp [e], hp, ?_⟩
      intro x hx
      rcases List.mem_cons.mp hx with rfl | hx
      · exact ha2
      · exact hpre x hx

theorem findTextLoop_none : ∀ (parts : List JVal), (∀ p ∈ parts, p.isNullish = false) →
    (∀ p ∈ parts, (p.prop "type").isStr "text" = false) →
    findTextLoop parts = .ok .undefined := by
  intro parts
  induction parts with
  | nil => intro _ _; rfl
  | cons p rest ih =>
    intro hn ht
    have hp := hn p (List.mem_cons_self _ _)
    have htp := ht p (List.mem_cons_self _ _)
    rw [findTextLoop, get_ok p "type" hp]
    simp only [bind, Except.bind, htp]
    exact ih (fun q hq => hn q (List.mem_cons_of_mem _ hq))
      (fun q hq => ht q (List.mem_cons_of_mem _ hq))

theorem findTextLoop_first : ∀ (pre : List JVal) (p : JVal) (post : List JVal),
    (∀ q ∈ pre, q.isNullish = false) →
    (∀ q ∈ pre, (q.prop "type").isStr "text" = false) →
    (p.prop "type").isStr "text" = true →
    findTextLoop (pre ++ p :: post) = .ok p := by
  intro pre
  induction pre with
  | nil =>
    intro p post _ _ hp
    rw [List.nil_append, findTextLoop, get_ok p "type" (isText_truthy hp).2]
    simp [bind, Except.bind, hp, pure, Except.pure]
  | cons q pre ih =>
    intro p post hn ht hp
    have hq := hn q (List.mem_cons_self _ _)
    have htq := ht q (List.mem_cons_self _ _)
    rw [List.cons_append, findTextLoop, get_ok q "type" hq]
    simp only [bind, Except.bind, htq]
    exact ih p post (fun x hx => hn x (List.mem_cons_of_mem _ hx))
      (fun x hx => ht x (List.mem_cons_of_mem _ hx)) hp

theorem createAssistantCard_ne_empty (text : JVal) : createAssistantCard text ≠ "" := by
  intro h
  have h2 := congrArg String.data h
  unfold createAssistantCard at h2
  rw [String.data_append, String.data_append] at h2
  exact absurd h2 (by simp)

/-! ## Claims on the cards of the events -/

/-- C13, as stated, fails: on a user event with empty content `createCardHtml`
returns the empty fragment, not the user card of the empty text. -/
theorem user_card_counterexample :
    isUser emptyUser = true
    ∧ createCardHtml examplePlatform emptyUser = .ok ""
    ∧ createCardHtml examplePlatform emptyUser ≠ createUserCard (.str "") := by
  refine ⟨rfl, rfl, ?_⟩
  intro h
  have h2 : (Except.ok "" : Except JSError String) = createUserCard (.str "") := h
  rw [createUserCard_str] at h2
  have h3 := congrArg String.length (Except.ok.inj h2)
  revert h3
  decide

/-- C13, amended: on a user event whose content is truthy `createCardHtml`
returns `createUserCard(content)`; when the content is a non-empty string `t`,
that is the user card whose body is `t` with each of `& < > " '` replaced by its
entity and every other character unchanged. -/
theorem user_card_verbatim (P : Platform) (msg : JVal) (hn : msg.isNullish = false)
    (hu : isUser msg = true) :
    (((msg.prop "message").optGet "content").truthy = true →
      createCardHtml P msg = createUserCard ((msg.prop "message").optGet "content"))
    ∧ (∀ t : String, (msg.prop "message").optGet "content" = .str t → t ≠ "" →
      createCardHtml P msg = .ok
        ("\n    <div class=\"chat-message user-message\">\n      <div class=\"d-flex align-items-center mb-2\">\n        <i class=\"bi bi-person-fill me-2\" style=\"font-size: 1.2rem;\"></i>\n        <strong class=\"fs-6\">User</strong>\n      </div>\n      <pre style=\"white-space: pre-wrap; word-wrap: break-word; margin: 0; font-family: var(--font-monospace); font-size: 0.9rem;\"><code>"
          ++ String.mk (t.data.flatMap escapeChar) ++ "</code></pre>\n    </div>")) := by
  refine ⟨createCardHtml_user P msg hn hu, ?_⟩
  intro t hc ht
  have htr : ((msg.prop "message").optGet "content").truthy = true := by
    rw [hc]
    simpa [JVal.truthy] using ht
  rw [createCardHtml_user P msg hn hu htr, hc, createUserCard_str, ← escapeHTML_data]

theorem user_card_verbatim_witness :
    createCardHtml examplePlatform scenarioHi
      = createUserCard ((scenarioHi.prop "message").optGet "content") :=
  (user_card_verbatim examplePlatform scenarioHi rfl rfl).1 rfl

/-- C14: on an assistant event whose content is an array of parts (none `null`
or `undefined`), `createCardHtml` returns the empty fragment exactly when no part
has type `text`, and otherwise `createAssistantCard` of the `text` of the first
part of type `text`. -/
theorem assistant_first_text (P : Platform) (msg : JVal) (parts : List JVal)
    (hn : msg.isNullish = false)
    (ha : ((msg.prop "message").optGet "role").isStr "assistant" = true)
    (hc : (msg.prop "message").optGet "content" = .arr parts)
    (hp : ∀ p ∈ parts, p.isNullish = false) :
    (createCardHtml P msg = .ok "" ↔ ∀ p ∈ parts, (p.prop "type").isStr "text" = false)
    ∧ (∀ (pre : List JVal) (p : JVal) (post : List JVal), parts = pre ++ p :: post →
        (∀ q ∈ pre, (q.prop "type").isStr "text" = false) →
        (p.prop "type").isStr "text" = true →
        createCardHtml P msg = .ok (createAssistantCard (p.prop "text"))) := by
  have hfirst : ∀ (pre : List JVal) (p : JVal) (post : List JVal), parts = pre ++ p :: post →
      (∀ q ∈ pre, (q.prop "type").isStr "text" = false) →
      (p.prop "type").isStr "text" = true →
      createCardHtml P msg = .ok (createAssistantCard (p.prop "text")) := by
    intro pre p post e hpre htp
    have hnpre : ∀ q ∈ pre, q.isNullish = false :=
      fun q hq => hp q (e ▸ List.mem_append_left _ hq)
    rw [createCardHtml_assistant P msg hn ha, hc, findTextPart, e,
      findTextLoop_first pre p post hnpre hpre htp]
    simp [Except.bind, (isText_truthy htp).1, get_ok p "text" (isText_truthy htp).2,
      pure, Except.pure]
  refine ⟨⟨?_, ?_⟩, hfirst⟩
  · intro h p hmem
    by_contra hne
    have hex : ∃ q ∈ parts, (q.prop "type").isStr "text" = true :=
      ⟨p, hmem, by simpa using hne⟩
    obtain ⟨pre, q, post, e, hq, hpre⟩ := exists_first_text parts hex
    rw [hfirst pre q post e hpre hq] at h
    exact createAssistantCard_ne_empty _ (Except.ok.inj h)
  · intro hall
    rw [createCardHtml_assistant P msg hn ha, hc, findTextPart, findTextLoop_none parts hp hall]
    rfl

theorem assistant_first_text_witness :
    createCardHtml examplePlatform scenarioHello
      = .ok (createAssistantCard
          ((JVal.obj [("type", .str "text"), ("text", .str "**hello**")]).prop "text")) :=
  (assistant_first_text examplePlatform scenarioHello
    [.obj [("type", .str "text"), ("text", .str "**hello**")]] rfl rfl rfl (by decide)).2
    [] _ [] rfl (by decide) rfl

/-- C16, as stated, fails: on a thinking event whose first content part has no
thinking text and whose content is not a string, the body of the card is the
text `Thinking...`, not the content of the event. -/
theorem thinking_card_counterexample :
    createCardHtml examplePlatform thinkingWithoutText
      = createCollapsedCard "💭 Thinking..." (.str "Thinking...") "plaintext" (.bool false)
    ∧ jsString ((thinkingWithoutText.prop "message").prop "content") = .ok "[object Object]"
    ∧ createCardHtml examplePlatform thinkingWithoutText
      ≠ createCollapsedCard "💭 Thinking..." ((thinkingWithoutText.prop "message").prop "content")
          "plaintext" (.bool false) := by
  refine ⟨rfl, rfl, ?_⟩
  intro h
  have h1 : createCardHtml examplePlatform thinkingWithoutText
      = createCollapsedCard "💭 Thinking..." (.str "Thinking...") "plaintext" (.bool false) := rfl
  rw [h1, createCollapsedCard_str,
    createCollapsedCard_ok "💭 Thinking..." "plaintext"
      ((thinkingWithoutText.prop "message").prop "content") (.bool false)
      "[object Object]" rfl] at h
  have h3 := congrArg String.length (Except.ok.inj h)
  revert h3
  decide

/-- C16, amended: on a thinking event whose role is neither `user` nor
`assistant`, `createCardHtml` returns what `createCollapsedCard` returns for the
title `Thinking...` and the value `x`, where `x` is the `thinking` of the first
content part when that is truthy (the thinking text when it is a non-empty
string, the value itself otherwise), else the content of the event when that is
a string, else the text `Thinking...`; and whenever `String(x)` returns, that
is the collapsed card whose body is the escaped `String(x)`. -/
theorem thinking_card (P : Platform) (msg : JVal) (hn : msg.isNullish = false)
    (hu : ((msg.prop "message").optGet "role").isStr "user" = false)
    (ha : ((msg.prop "message").optGet "role").isStr "assistant" = false)
    (ht : (msg.prop "type").isStr "thinking" = true) :
    (∀ t : String,
      (((msg.prop "message").optGet "content").optGet "0").optGet "thinking" = .str t →
      t ≠ "" →
      createCardHtml P msg
        = createCollapsedCard "💭 Thinking..." (.str t) "plaintext" (.bool false))
    ∧ (∀ c : String,
      ((((msg.prop "message").optGet "content").optGet "0").optGet "thinking").truthy = false →
      (msg.prop "message").optGet "content" = .str c →
      createCardHtml P msg
        = createCollapsedCard "💭 Thinking..." (.str c) "plaintext" (.bool false))
    ∧ (((((msg.prop "message").optGet "content").optGet "0").optGet "thinking").truthy = false →
      ((msg.prop "message").optGet "content").isString = false →
      createCardHtml P msg
        = createCollapsedCard "💭 Thinking..." (.str "Thinking...") "plaintext" (.bool false))
    ∧ (((((msg.prop "message").optGet "content").optGet "0").optGet "thinking").truthy = true →
      createCardHtml P msg
        = createCollapsedCard "💭 Thinking..."
            ((((msg.prop "message").optGet "content").optGet "0").optGet "thinking")
            "plaintext" (.bool false))
    ∧ (∀ (x : JVal) (text : String), jsString x = .ok text →
      createCollapsedCard "💭 Thinking..." x "plaintext" (.bool false) = .ok
        ("\n    <div class=\"collapsed-message \">\n      <details>\n        <summary>💭 Thinking...</summary>\n        <div class=\"tool-result \">\n          <pre><code class=\"language-plaintext\">"
          ++ escapeHTML (.str text)
          ++ "</code></pre>\n        </div>\n      </details>\n    </div>")) := by
  refine ⟨?_, ?_, ?_, ?_, ?_⟩
  · intro t h1 h2
    have : (JVal.str t).truthy = true := by simpa [JVal.truthy] using h2
    rw [createCardHtml_thinking P msg hn hu ha ht, h1, if_pos this]
  · intro c h1 h2
    rw [createCardHtml_thinking P msg hn hu ha ht, if_neg (by simp [h1]), h2]
    rfl
  · intro h1 h2
    rw [createCardHtml_thinking P msg hn hu ha ht, if_neg (by simp [h1]),
      if_neg (by simp [h2])]
  · intro h1
    rw [createCardHtml_thinking P msg hn hu ha ht, if_pos h1]
  · intro x text hs
    rw [createCollapsedCard_ok _ _ _ _ text hs]
    rfl

theorem thinking_card_witness :
    createCardHtml examplePlatform scenarioThinking
      = createCollapsedCard "💭 Thinking..." (.str "pondering") "plaintext" (.bool false) :=
  (thinking_card examplePlatform scenarioThinking rfl rfl rfl rfl).1 "pondering" rfl (by decide)

/-- C17: on a tool-result event whose role is neither `user` nor `assistant`
and that has a first content part, `createCardHtml` returns the collapsed card
with the title `Tool Error` and the class `is-error` when the `is_error` of that
part is truthy, and with the title `Tool Result` and without the class
otherwise; the body is the escaped text of the `content` of the part. -/
theorem tool_result_card (P : Platform) (msg : JVal) (text : String)
    (hn : msg.isNullish = false)
    (hu : ((msg.prop "message").optGet "role").isStr "user" = false)
    (ha : ((msg.prop "message").optGet "role").isStr "assistant" = false)
    (ht : (msg.prop "type").isStr "tool_result" = true)
    (hm : (msg.prop "message").isNullish = false)
    (hc : ((msg.prop "message").prop "content").isNullish = false)
    (hp : (((msg.prop "message").prop "content").prop "0").isNullish = false)
    (hs : jsString ((((msg.prop "message").prop "content").prop "0").prop "content")
      = .ok text) :
    (((((msg.prop "message").prop "content").prop "0").prop "is_error").truthy = true →
      createCardHtml P msg = .ok
        ("\n    <div class=\"collapsed-message is-error\">\n      <details>\n        <summary>🧰 Tool Error</summary>\n        <div class=\"tool-result is-error\">\n          <pre><code class=\"language-bash\">"
          ++ escapeHTML (.str text)
          ++ "</code></pre>\n        </div>\n      </details>\n    </div>"))
    ∧ (((((msg.prop "message").prop "content").prop "0").prop "is_error").truthy = false →
      createCardHtml P msg = .ok
        ("\n    <div class=\"collapsed-message \">\n      <details>\n        <summary>🧰 Tool Result</summary>\n        <div class=\"tool-result \">\n          <pre><code class=\"language-bash\">"
          ++ escapeHTML (.str text)
          ++ "</code></pre>\n        </div>\n      </details>\n    </div>")) := by
  rw [createCardHtml_toolResult P msg hn hu ha ht hm hc hp]
  constructor
  · intro hf
    rw [createCollapsedCard_ok _ _ _ _ text hs]
    simp only [hf, if_true]
    rfl
  · intro hf
    rw [createCollapsedCard_ok _ _ _ _ text hs]
    simp only [hf, Bool.false_eq_true, if_false]
    rfl

theorem tool_result_card_witness :
    createCardHtml examplePlatform failedToolResult = .ok
      ("\n    <div class=\"collapsed-message is-error\">\n      <details>\n        <summary>🧰 Tool Error</summary>\n        <div class=\"tool-result is-error\">\n          <pre><code class=\"language-bash\">"
        ++ escapeHTML (.str "<no such file>")
        ++ "</code></pre>\n        </div>\n      </details>\n    </div>") :=
  (tool_result_card examplePlatform failedToolResult "<no such file>"
    rfl rfl rfl rfl rfl rfl rfl rfl).1 rfl

/-- C19: a user event with truthy content whose type is `tool_result`,
`tool_use` or `thinking` begins a turn of its own, closing the turn open before
it, and `createCardHtml` returns its user card: `createUserCard(content)`. -/
theorem role_over_type (P : Platform) (xs ys : List JVal) (e : JVal)
    (hxs : ∀ m ∈ xs, m.isNullish = false) (hys : ∀ m ∈ ys, m.isNullish = false)
    (he : e.isNullish = false) (hu : isUser e = true)
    (_hty : (e.prop "type").isStr "tool_result" = true ∨ (e.prop "type").isStr "tool_use" = true
      ∨ (e.prop "type").isStr "thinking" = true)
    (hc : ((e.prop "message").optGet "content").truthy = true) :
    (∃ before after, groupMessagesIntoSteps xs = (before, none)
      ∧ groupMessagesIntoSteps ys = (after, none)
      ∧ groupMessagesIntoSteps (xs ++ [e] ++ ys)
        = (before ++ (e :: (ys.takeWhile (fun m => !isUser m)).filter isAccepted) :: after,
            none))
    ∧ createCardHtml P e = createUserCard ((e.prop "message").optGet "content")
    ∧ (∀ text : String, jsString ((e.prop "message").optGet "content") = .ok text →
      createCardHtml P e = .ok
        ("\n    <div class=\"chat-message user-message\">\n      <div class=\"d-flex align-items-center mb-2\">\n        <i class=\"bi bi-person-fill me-2\" style=\"font-size: 1.2rem;\"></i>\n        <strong class=\"fs-6\">User</strong>\n      </div>\n      <pre style=\"white-space: pre-wrap; word-wrap: break-word; margin: 0; font-family: var(--font-monospace); font-size: 0.9rem;\"><code>"
          ++ escapeHTML (.str text) ++ "</code></pre>\n    </div>")) := by
  have hall : ∀ m ∈ xs ++ [e] ++ ys, m.isNullish = false := by
    intro m hm
    simp only [List.mem_append, List.mem_singleton] at hm
    rcases hm with (hm | rfl) | hm
    · exact hxs m hm
    · exact he
    · exact hys m hm
  refine ⟨⟨turnsOf xs, turnsOf ys, groupMessagesIntoSteps_turnsOf xs hxs,
    groupMessagesIntoSteps_turnsOf ys hys, ?_⟩, createCardHtml_user P e he hu hc, ?_⟩
  · rw [groupMessagesIntoSteps_turnsOf _ hall, List.append_assoc, List.singleton_append,
      turnsOf_user xs ys e hu]
  · intro text hs
    rw [createCardHtml_user P e he hu hc, createUserCard_ok _ text hs]

theorem role_over_type_witness :
    createCardHtml examplePlatform userToolResult
      = createUserCard ((userToolResult.prop "message").optGet "content") :=
  (role_over_type examplePlatform [scenarioHi, scenarioThinking] [scenarioHello] userToolResult
    (by decide) (by decide) rfl rfl (Or.inl rfl) rfl).2.1

/-! ## Regular expressions: matches that exist, inputs without a match -/

theorem mem_lit_intro : ∀ (l rest : List Char) (caps : Nat → List Char),
    (⟨l, rest, caps⟩ : Match) ∈ (Re.lit l).matches (l ++ rest) caps := by
  intro l
  induction l with
  | nil => intro rest caps; simp [Re.lit, Re.matches]
  | cons c l ih =>
    intro rest caps
    simp only [Re.lit, Re.matches, List.cons_append, if_true, List.flatMap_cons,
      List.flatMap_nil, List.append_nil, List.mem_map]
    exact ⟨⟨l, rest, caps⟩, ih rest caps, rfl⟩

theorem mem_manyRuns_intro (greedy : Bool) (p : Char → Bool) :
    ∀ (pre rest : List Char), (∀ x ∈ pre, p x = true) →
      (pre, rest) ∈ manyRuns greedy p (pre ++ rest) := by
  intro pre
  induction pre with
  | nil =>
    intro rest _
    cases rest with
    | nil => simp [manyRuns]
    | cons c t =>
      by_cases hp : p c = true
      · cases greedy <;> simp [manyRuns, hp]
      · simp [manyRuns, hp]
  | cons x pre ih =>
    intro rest h
    have hx : p x = true := h x (List.mem_cons_self _ _)
    have hmem := ih rest (fun y hy => h y (List.mem_cons_of_mem _ hy))
    have hmore : (x :: pre, rest) ∈
        (manyRuns greedy p (pre ++ rest)).map (fun r => (x :: r.1, r.2)) :=
      List.mem_map.mpr ⟨(pre, rest), hmem, rfl⟩
    cases greedy
    · simp only [List.cons_append, manyRuns, hx, if_true, Bool.false_eq_true, if_false]
      exact List.mem_cons_of_mem _ hmore
    · simp only [List.cons_append, manyRuns, hx, if_true]
      exact List.mem_append_left _ hmore

theorem mem_seq_intro {a b : Re} {s : List Char} {caps : Nat → List Char} {m1 m2 : Match}
    (h1 : m1 ∈ a.matches s caps) (h2 : m2 ∈ b.matches m1.rest m1.caps) :
    (⟨m1.text ++ m2.text, m2.rest, m2.caps⟩ : Match) ∈ (Re.seq a b).matches s caps := by
  simp only [Re.matches, List.mem_flatMap, List.mem_map]
  exact ⟨m1, h1, m2, h2, rfl⟩

theorem mem_grp_intro {i : Nat} {r : Re} {s : List Char} {caps : Nat → List Char} {m : Match}
    (h : m ∈ r.matches s caps) :
    (⟨m.text, m.rest, fun j => if j = i then m.text else m.caps j⟩ : Match)
      ∈ (Re.grp i r).matches s caps := by
  simp only [Re.matches, List.mem_map]
  exact ⟨m, h, rfl⟩

theorem mem_many_intro (greedy : Bool) (p : Char → Bool) (pre rest : List Char)
    (caps : Nat → List Char) (h : ∀ x ∈ pre, p x = true) :
    (⟨pre, rest, caps⟩ : Match) ∈ (Re.many greedy p).matches (pre ++ rest) caps := by
  simp only [Re.matches, List.mem_map]
  exact ⟨(pre, rest), mem_manyRuns_intro greedy p pre rest h, rfl⟩

theorem exec_some_of_mem {r : Re} {s : List Char} {m : Match}
    (h : m ∈ r.matches s (fun _ => [])) : ∃ m2, r.exec s = some m2 := by
  unfold Re.exec
  cases hl : r.matches s (fun _ => []) with
  | nil => rw [hl] at h; simp at h
  | cons a l => exact ⟨a, rfl⟩

theorem replaceLoop_nil (r : Re) (f : Match → List Char) (h : r.exec [] = none) :
    ∀ fuel : Nat, replaceLoop r f fuel [] = [] := by
  intro fuel
  cases fuel with
  | zero => rfl
  | succ fuel => rw [replaceLoop_succ, h]

/-- A text no suffix of which has a match is left as it is. -/
theorem replaceLoop_no_match (r : Re) (f : Match → List Char) :
    ∀ (fuel : Nat) (s : List Char), (∀ pre suf, s = pre ++ suf → r.exec suf = none) →
      replaceLoop r f fuel s = s := by
  intro fuel
  induction fuel with
  | zero => intro s _; rfl
  | succ fuel ih =>
    intro s h
    rw [replaceLoop_succ, h [] s rfl]
    cases s with
    | nil => rfl
    | cons c t =>
      simp only
      rw [ih t (fun pre suf e => h (c :: pre) suf (by simp [e]))]

theorem jsReplace_no_match (r : Re) (f : Match → String) (s : String)
    (h : ∀ pre suf, s.data = pre ++ suf → r.exec suf = none) : jsReplace r f s = s := by
  unfold jsReplace
  rw [replaceLoop_no_match r _ _ _ h]

/-- No match when the character at which every match starts is not in the
text. -/
theorem jsReplace_absent_char (r : Re) (f : Match → String) (c : Char) (s : String)
    (hstart : ∀ t m, r.exec t = some m → m.text ≠ [] ∧ ∀ x u, t = x :: u → x = c)
    (hc : c ∉ s.data) : jsReplace r f s = s := by
  refine jsReplace_no_match r f s ?_
  intro pre suf e
  cases hex : r.exec suf with
  | none => rfl
  | some m =>
    exfalso
    obtain ⟨hne, hx⟩ := hstart suf m hex
    have e2 := matches_text_rest r (mem_of_exec hex)
    cases suf with
    | nil =>
      have : m.text = [] := by
        have := congrArg List.length e2
        simp at this
        exact List.length_eq_zero.mp (by omega)
      exact hne this
    | cons x u =>
      have hxc := hx x u rfl
      apply hc
      rw [e, ← hxc]
      simp

/-- No match when the literal with which every match starts is not in the
text. -/
theorem jsReplace_absent_lit (r : Re) (f : Match → String) (l : List Char) (s : String)
    (hstart : ∀ t m, r.exec t = some m → l <+: t)
    (hl : ¬ l <:+: s.data) : jsReplace r f s = s := by
  refine jsReplace_no_match r f s ?_
  intro pre suf e
  cases hex : r.exec suf with
  | none => rfl
  | some m =>
    exfalso
    obtain ⟨post, hp⟩ := hstart suf m hex
    exact hl ⟨pre, post, by rw [e, ← hp, List.append_assoc]⟩

theorem lit_prefix {l : List Char} {s : List Char} {caps : Nat → List Char} {m : Match}
    (h : m ∈ (Re.lit l).matches s caps) : l <+: s :=
  ⟨m.rest, (mem_matches_lit l h).1.symm⟩

theorem seq_lit_prefix {l : List Char} {r : Re} {s : List Char} {caps : Nat → List Char}
    {m : Match} (h : m ∈ (Re.seq (Re.lit l) r).matches s caps) : l <+: s := by
  obtain ⟨m1, h1, _, _, _, _, _⟩ := mem_matches_seq h
  exact lit_prefix h1

/-! ## The bold rule on a plain text -/

theorem split_at_stars : ∀ (s t r : List Char), '*' ∉ s →
    s ++ ['*', '*'] = t ++ '*' :: '*' :: r → t = s ∧ r = [] := by
  intro s
  induction s with
  | nil =>
    intro t r _ e
    have hlen := congrArg List.length e
    simp at hlen
    have ht : t = [] := List.length_eq_zero.mp (by omega)
    have hr : r = [] := List.length_eq_zero.mp (by omega)
    exact ⟨ht, hr⟩
  | cons x s ih =>
    intro t r hs e
    cases t with
    | nil =>
      simp only [List.cons_append, List.nil_append, List.cons.injEq] at e
      exact absurd e.1 (fun h => hs (h ▸ List.mem_cons_self _ _))
    | cons y t =>
      simp only [List.cons_append, List.cons.injEq] at e
      obtain ⟨ht, hr⟩ := ih t r (fun h => hs (List.mem_cons_of_mem _ h)) e.2
      exact ⟨by rw [e.1, ht], hr⟩

/-- On `**s**`, where `s` has no `*` and no line terminator, the bold rule
matches the whole text and captures `s`. -/
theorem exec_reBold_plain (s : List Char) (hstar : '*' ∉ s)
    (hdot : ∀ c ∈ s, dot c = true) :
    ∃ m, reBold.exec ('*' :: '*' :: (s ++ ['*', '*'])) = some m
      ∧ m.caps 1 = s ∧ m.rest = [] ∧ m.text ≠ [] := by
  have hmem : (⟨['*', '*'] ++ (s ++ ['*', '*']), [], fun j => if j = 1 then s else []⟩ : Match)
      ∈ reBold.matches ('*' :: '*' :: (s ++ ['*', '*'])) (fun _ => []) := by
    have h1 := mem_lit_intro ['*', '*'] (s ++ ['*', '*']) (fun _ => [])
    have h2 := mem_grp_intro (i := 1)
      (mem_many_intro false dot s ['*', '*'] (fun _ => []) hdot)
    have h3 := mem_lit_intro ['*', '*'] [] (fun j => if j = 1 then s else [])
    exact mem_seq_intro h1 (mem_seq_intro h2 h3)
  obtain ⟨m, hm⟩ := exec_some_of_mem hmem
  refine ⟨m, hm, ?_⟩
  obtain ⟨a, ha, b, hb, hmt, hmr, hmc⟩ := mem_matches_seq (mem_of_exec hm)
  obtain ⟨g, hg, l2, hl2, _, hbr, hbc⟩ := mem_matches_seq hb
  obtain ⟨g0, hg0, hgt, hgr, hgc⟩ := mem_matches_grp hg
  obtain ⟨ea, hat, _⟩ := mem_matches_lit ['*', '*'] ha
  obtain ⟨el, _, hl2c⟩ := mem_matches_lit ['*', '*'] hl2
  have eg := matches_text_rest _ hg
  have harest : a.rest = s ++ ['*', '*'] := by
    simp only [List.cons_append, List.nil_append, List.cons.injEq, true_and] at ea
    exact ea.symm
  have hsplit : s ++ ['*', '*'] = g.text ++ '*' :: '*' :: l2.rest := by
    rw [← harest, eg, el]
    rfl
  obtain ⟨hgs, hrest⟩ := split_at_stars s g.text l2.rest hstar hsplit
  refine ⟨?_, ?_, ?_⟩
  · have hc1 : m.caps 1 = g0.text := by
      rw [hmc, hbc, hl2c, hgc]
      simp
    rw [hc1, ← hgt, hgs]
  · rw [hmr, hbr, hrest]
  · rw [hmt, hat]
    simp

theorem flatMap_escapeChar_plain : ∀ (l : List Char), (∀ c ∈ l, isSpecial c = false) →
    l.flatMap escapeChar = l := by
  intro l
  induction l with
  | nil => intro _; rfl
  | cons c l ih =>
    intro h
    rw [List.flatMap_cons, escapeChar_not_special c (h c (List.mem_cons_self _ _)),
      ih (fun x hx => h x (List.mem_cons_of_mem _ hx))]
    rfl

theorem exec_start_of_seq_lit {c : Char} {l : List Char} {r : Re} (t : List Char) (m : Match)
    (h : (Re.seq (Re.lit (c :: l)) r).exec t = some m) :
    m.text ≠ [] ∧ ∀ x u, t = x :: u → x = c :=
  seq_lit_start (mem_of_exec h)

/-- The substitutions on `**s**` for a text `s` without `*`, backtick, `&`,
`<`, `>`, quotes and line terminators. -/
theorem markdownToHtml_bold (s : String)
    (h : ∀ c ∈ s.data, c ≠ '*' ∧ c ≠ Char.ofNat 96 ∧ isSpecial c = false
      ∧ isLineTerminator c = false) :
    markdownToHtml (.str ("**" ++ s ++ "**")) = "<strong>" ++ s ++ "</strong>" := by
  have hstar : '*' ∉ s.data := fun hc => (h _ hc).1 rfl
  have hdot : ∀ c ∈ s.data, dot c = true := fun c hc => by simp [dot, (h c hc).2.2.2]
  -- escaping leaves the text as it is
  have h0 : escapeHTML (.str ("**" ++ s ++ "**")) = "**" ++ s ++ "**" := by
    apply String.ext
    rw [escapeHTML_data, flatMap_escapeChar_plain]
    intro c hc
    simp only [String.data_append, List.mem_append] at hc
    rcases hc with (hc | hc) | hc
    · revert c; decide
    · exact (h c hc).2.2.1
    · revert c; decide
  -- no fence
  have h1 : jsReplace reFence fenceReplacer ("**" ++ s ++ "**") = "**" ++ s ++ "**" := by
    refine jsReplace_absent_char _ _ (Char.ofNat 96) _
      (fun t m hm => seq_lit_start (c := Char.ofNat 96) (l := [Char.ofNat 96, Char.ofNat 96])
        (mem_of_exec hm)) ?_
    intro hc
    simp only [String.data_append, List.mem_append] at hc
    rcases hc with (hc | hc) | hc
    · revert hc; decide
    · exact (h _ hc).2.1 rfl
    · revert hc; decide
  -- the bold rule
  have h2 : jsReplace reBold (fun m => "<strong>" ++ String.mk (m.caps 1) ++ "</strong>")
      ("**" ++ s ++ "**") = "<strong>" ++ s ++ "</strong>" := by
    obtain ⟨m, hm, hcap, hrest, htext⟩ := exec_reBold_plain s.data hstar hdot
    apply String.ext
    have hdata : ("**" ++ s ++ "**").data = '*' :: '*' :: (s.data ++ ['*', '*']) := by
      simp only [String.data_append]
      rfl
    simp only [jsReplace, hdata]
    rw [replaceLoop_succ, hm]
    cases ht : m.text with
    | nil => exact absurd ht htext
    | cons a b =>
      simp only [ht]
      rw [hrest, replaceLoop_nil reBold _ rfl, hcap]
      simp [String.data_append]
  -- the text after the bold rule
  have hsafe : tagSafe ["<strong>".data, "</strong>".data]
      ("<strong>" ++ s ++ "</strong>").data = true := by
    simp only [String.data_append]
    refine tagSafe_append (tagSafe_append (by decide) (tagSafe_of_no_lt ?_)) (by decide)
    intro x hx hxe
    have := (h x hx).2.2.1
    rw [hxe] at this
    revert this
    decide
  have hno : ∀ c : Char, c ≠ '<' → c ∉ "<strong>".data → c ∉ "</strong>".data →
      (c ∈ s.data → False) → c ∉ ("<strong>" ++ s ++ "</strong>").data := by
    intro c _ h1 h2 h3 hc
    simp only [String.data_append, List.mem_append] at hc
    rcases hc with (hc | hc) | hc
    · exact h1 hc
    · exact h3 hc
    · exact h2 hc
  have h3 : jsReplace reItalic (fun m => "<em>" ++ String.mk (m.caps 1) ++ "</em>")
      ("<strong>" ++ s ++ "</strong>") = "<strong>" ++ s ++ "</strong>" :=
    jsReplace_absent_char _ _ '*' _
      (fun t m hm => by
        obtain ⟨a, ha, b, _, hmt, _, _⟩ := mem_matches_seq (mem_of_exec hm)
        obtain ⟨h1, h2⟩ := chr_start ha
        exact ⟨by rw [hmt]; intro hn; exact h1 (List.append_eq_nil.mp hn).1, h2⟩)
      (hno '*' (by decide) (by decide) (by decide) hstar)
  have h4 : jsReplace reInlineCode (fun m =>
      "<code style=\"background-color: #e9ecef; padding: .2em .4em; border-radius: .25rem;\">"
        ++ String.mk (m.caps 1) ++ "</code>")
      ("<strong>" ++ s ++ "</strong>") = "<strong>" ++ s ++ "</strong>" :=
    jsReplace_absent_char _ _ (Char.ofNat 96) _
      (fun t m hm => by
        obtain ⟨a, ha, b, _, hmt, _, _⟩ := mem_matches_seq (mem_of_exec hm)
        obtain ⟨h1, h2⟩ := chr_start ha
        exact ⟨by rw [hmt]; intro hn; exact h1 (List.append_eq_nil.mp hn).1, h2⟩)
      (hno (Char.ofNat 96) (by decide) (by decide) (by decide) (fun hc => (h _ hc).2.1 rfl))
  have hnl : '\n' ∉ ("<strong>" ++ s ++ "</strong>").data :=
    hno '\n' (by decide) (by decide) (by decide)
      (fun hc => by
        have := (h _ hc).2.2.2
        revert this
        decide)
  have h5 : jsReplace reBullet (fun m => "<li>" ++ String.mk (m.caps 2) ++ "</li>")
      ("<strong>" ++ s ++ "</strong>") = "<strong>" ++ s ++ "</strong>" :=
    jsReplace_absent_char _ _ '\n' _
      (fun t m hm => by
        obtain ⟨u, e, _, _, hne⟩ := exec_reBullet hm
        exact ⟨hne, fun x v e2 => by rw [e2] at e; exact (List.cons.inj e).1⟩)
      hnl
  have h6 : jsReplace reListRun (fun m =>
      "<ul style=\"padding-left: 1.2rem; margin-top: 0.5rem; margin-bottom: 0.5rem;\">"
        ++ String.mk m.text ++ "</ul>")
      ("<strong>" ++ s ++ "</strong>") = "<strong>" ++ s ++ "</strong>" :=
    jsReplace_absent_lit _ _ "<li>".data _
      (fun t m hm => by
        obtain ⟨a, ha, _, _, _⟩ := mem_matches_grp (mem_of_exec hm)
        exact seq_lit_prefix ha)
      (tagSafe_excludes hsafe (by decide))
  have h7 : jsReplace (Re.lit "</ul>\n".data) (fun _ => "</ul>")
      ("<strong>" ++ s ++ "</strong>") = "<strong>" ++ s ++ "</strong>" :=
    jsReplace_absent_lit _ _ "</ul>\n".data _ (fun t m hm => lit_prefix (mem_of_exec hm))
      (tagSafe_excludes hsafe (by decide))
  have h8 : jsReplace (.chr '\n') (fun _ => "<br>")
      ("<strong>" ++ s ++ "</strong>") = "<strong>" ++ s ++ "</strong>" :=
    jsReplace_absent_char _ _ '\n' _ (fun t m hm => chr_start (mem_of_exec hm)) hnl
  have h9 : jsReplace (Re.lit "<br><br>".data) (fun _ => "</p><p>")
      ("<strong>" ++ s ++ "</strong>") = "<strong>" ++ s ++ "</strong>" :=
    jsReplace_absent_lit _ _ "<br><br>".data _ (fun t m hm => lit_prefix (mem_of_exec hm))
      (tagSafe_excludes hsafe (by decide))
  have h10 : jsReplace (Re.lit "</ul><br>".data) (fun _ => "</ul>")
      ("<strong>" ++ s ++ "</strong>") = "<strong>" ++ s ++ "</strong>" :=
    jsReplace_absent_lit _ _ "</ul><br>".data _ (fun t m hm => lit_prefix (mem_of_exec hm))
      (tagSafe_excludes hsafe (by decide))
  unfold markdownToHtml
  simp only [h0, h1, h2, h3, h4, h5, h6, h7, h8, h9, h10]

/-! ## Claim on the bold rule and the scenario -/

/-- C15, as stated, fails: a carriage return and a line separator (U+2028) are
none of the excluded characters, `.` matches neither, and `**a\rb**` and
`**a\u2028b**` are rendered with two empty `em` elements instead of a `strong`
element. -/
theorem bold_counterexample :
    markdownToHtml (.str "**a\rb**") = "<em></em>a\rb<em></em>"
    ∧ ¬ "<strong>a\rb</strong>".data <:+: (createAssistantCard (.str "**a\rb**")).data
    ∧ markdownToHtml (.str "**a\u2028b**") = "<em></em>a\u2028b<em></em>"
    ∧ ¬ "<strong>a\u2028b</strong>".data
        <:+: (createAssistantCard (.str "**a\u2028b**")).data := by
  refine ⟨rfl, ?_, rfl, ?_⟩
  · have hsafe : tagSafe ["<div ".data, "</div>".data, "<i ".data, "</i>".data,
        "<strong ".data, "</strong>".data, "<p ".data, "</p>".data, "<em>".data, "</em>".data]
        (createAssistantCard (.str "**a\rb**")).data = true := by decide
    exact tagSafe_excludes hsafe (by decide)
  · have hsafe : tagSafe ["<div ".data, "</div>".data, "<i ".data, "</i>".data,
        "<strong ".data, "</strong>".data, "<p ".data, "</p>".data, "<em>".data, "</em>".data]
        (createAssistantCard (.str "**a\u2028b**")).data = true := by decide
    exact tagSafe_excludes hsafe (by decide)

/-- C15, amended: for every string `s` without `*`, backtick, `& < > " '` and
line terminator (`\n`, `\r`, U+2028, U+2029), the substitutions turn `**s**`
into `<strong>s</strong>`, which the card of `createAssistantCard` contains;
in the scenario the rendering of the first turn contains `<strong>hello</strong>`
and a `details` element without attributes with the summary `Thinking...`. -/
theorem bold_rendered :
    (∀ s : String,
      (∀ c ∈ s.data, c ≠ '*' ∧ c ≠ Char.ofNat 96 ∧ isSpecial c = false
        ∧ isLineTerminator c = false) →
      markdownToHtml (.str ("**" ++ s ++ "**")) = "<strong>" ++ s ++ "</strong>"
      ∧ ("<strong>" ++ s ++ "</strong>").data
          <:+: (createAssistantCard (.str ("**" ++ s ++ "**"))).data)
    ∧ "<strong>hello</strong>".data
        <:+: (init examplePlatform (.body scenarioText)
          (Viewer.initial examplePage)).dom.contentHtml.data
    ∧ "<details>\n        <summary>💭 Thinking...</summary>".data
        <:+: (init examplePlatform (.body scenarioText)
          (Viewer.initial examplePage)).dom.contentHtml.data := by
  have hcontent : (init examplePlatform (.body scenarioText)
      (Viewer.initial examplePage)).dom.contentHtml.data
      = ("\n    <div class=\"chat-message user-message\">\n      <div class=\"d-flex align-items-center mb-2\">\n        <i class=\"bi bi-person-fill me-2\" style=\"font-size: 1.2rem;\"></i>\n        <strong class=\"fs-6\">User</strong>\n      </div>\n      <pre style=\"white-space: pre-wrap; word-wrap: break-word; margin: 0; font-family: var(--font-monospace); font-size: 0.9rem;\"><code>hi</code></pre>\n    </div>\n    <div class=\"collapsed-message \">\n      ".data
        ++ "<details>\n        <summary>💭 Thinking...</summary>".data
        ++ "\n        <div class=\"tool-result \">\n          <pre><code class=\"language-plaintext\">pondering</code></pre>\n        </div>\n      </details>\n    </div>\n    <div class=\"chat-message assistant-message\">\n      <div class=\"d-flex align-items-center mb-2\">\n        <i class=\"bi bi-robot me-2\" style=\"font-size: 1.2rem; color: #0d6efd;\"></i>\n        <strong class=\"fs-6\" style=\"color: #0d6efd;\">Assistant</strong>\n      </div>\n      <p style=\"white-space: pre-wrap; word-wrap: break-word; margin-bottom: 0;\">".data)
        ++ "<strong>hello</strong>".data ++ "</p>\n    </div>".data := by
    rfl
  refine ⟨?_, ?_, ?_⟩
  · intro s h
    have hmd := markdownToHtml_bold s h
    refine ⟨hmd, ?_⟩
    unfold createAssistantCard
    rw [hmd, String.data_append, String.data_append]
    exact ⟨_, _, rfl⟩
  · rw [hcontent]
    exact ⟨_, _, rfl⟩
  · rw [hcontent]
    exact (List.infix_append _ _ _).trans
      ((List.prefix_append _ _).trans (List.prefix_append _ _)).isInfix

theorem bold_rendered_witness :
    markdownToHtml (.str ("**" ++ "hello" ++ "**")) = "<strong>" ++ "hello" ++ "</strong>"
    ∧ ("<strong>" ++ "hello" ++ "</strong>").data
        <:+: (createAssistantCard (.str ("**" ++ "hello" ++ "**"))).data :=
  bold_rendered.1 "hello" (by decide)

/-! ## Navigation there and back -/

theorem renderStep_frame {P : Platform} {v v2 : Viewer} {index : Int}
    (h : renderStep P v index = .ok v2) :
    v2.dom.loadingDisplay = v.dom.loadingDisplay
      ∧ v2.dom.containerOpacity = v.dom.containerOpacity := by
  unfold renderStep at h
  split at h
  · simp only [pure, Except.pure, Except.ok.injEq] at h
    subst h
    simp
  · simp only [bind, Except.bind] at h
    split at h
    · cases h
    · simp only [pure, Except.pure, Except.ok.injEq] at h
      subst h
      simp

/-- What `navigate` leaves as it was: the events, the turns, and the two style
properties. -/
theorem navigate_frame (P : Platform) (direction : Int) (v : Viewer) :
    (navigate P direction v).state.allMessages = v.allMessages
      ∧ (navigate P direction v).state.steps = v.steps
      ∧ (navigate P direction v).state.dom.loadingDisplay = v.dom.loadingDisplay
      ∧ (navigate P direction v).state.dom.containerOpacity = v.dom.containerOpacity := by
  rw [navigate_eq]
  split
  · cases hr : renderStep P { v with currentStep := v.currentStep + direction }
        (v.currentStep + direction) with
    | error e => exact ⟨rfl, rfl, rfl, rfl⟩
    | ok v2 =>
      have hf := renderStep_fields hr
      have hg := renderStep_frame hr
      exact ⟨hf.2.2.1, hf.1, hg.1, hg.2⟩
  · exact ⟨rfl, rfl, rfl, rfl⟩

/-- In a state that shows its cursor, the cards of the current turn are
rendered and joined in the content. -/
theorem cards_of_shown {P : Platform} {v : Viewer} (h0 : 0 ≤ v.currentStep)
    (h1 : v.currentStep < (v.steps.length : Int))
    (hr : renderStep P v v.currentStep = .ok v) :
    ∃ cards, (v.steps.getD v.currentStep.toNat []).mapM (createCardHtml P) = .ok cards
      ∧ v.dom.contentHtml = String.join cards := by
  cases hc : (v.steps.getD v.currentStep.toNat []).mapM (createCardHtml P) with
  | error e =>
    exfalso
    unfold renderStep at hr
    have hb : (decide (v.currentStep < 0)
        || decide (v.currentStep ≥ (v.steps.length : Int))) = false := by
      rw [Bool.or_eq_false_iff]
      constructor
      · simpa using h0
      · simpa using h1
    simp only [hb, hc, bind, Except.bind] at hr
    cases hr
  | ok cards =>
    refine ⟨cards, rfl, ?_⟩
    rw [renderStep_of_cards P v v.currentStep h0 h1 hc] at hr
    have := congrArg (fun w : Viewer => w.dom.contentHtml) (Except.ok.inj hr)
    exact this.symm

/-- A `navigate` that arrives at the cursor of a state `v` that shows its cursor,
from a state with the events, turns and style properties of `v`, returns in
`v`. -/
theorem navigate_to_shown (P : Platform) (v w : Viewer) (direction : Int)
    (hall : w.allMessages = v.allMessages) (hsteps : w.steps = v.steps)
    (hld : w.dom.loadingDisplay = v.dom.loadingDisplay)
    (hco : w.dom.containerOpacity = v.dom.containerOpacity)
    (hcur : w.currentStep + direction = v.currentStep)
    (h0 : 0 ≤ v.currentStep) (h1 : v.currentStep < (v.steps.length : Int))
    (hr : renderStep P v v.currentStep = .ok v) (hnav : updateNavState v = v) :
    navigate P direction w = ⟨v, none⟩ := by
  obtain ⟨cards, hcards, hcontent⟩ := cards_of_shown h0 h1 hr
  obtain ⟨wall, wsteps, wcur, ⟨wch, wct, wpd, wnd, wld, wco⟩⟩ := w
  obtain ⟨vall, vsteps, vcur, ⟨vch, vct, vpd, vnd, vld, vco⟩⟩ := v
  simp only at hall hsteps hld hco hcur hcontent h0 h1 hcards
  subst hall hsteps hld hco hcontent
  rw [navigate_eq]
  simp only [hcur]
  rw [if_pos ⟨h0, h1⟩, renderStep_of_cards P _ _ h0 h1 hcards]
  simp only
  congr 1

/-! ## Claim on navigation there and back -/

/-- The round trip on a state that shows its cursor (rendering the turn at the
cursor and updating the navigation state leave it as it is): with `N` turns and
the cursor `c`, `navigate(1)` followed by `navigate(-1)` returns in that state
when `0 ≤ c < N - 1`, and `navigate(-1)` followed by `navigate(1)` when
`0 < c ≤ N - 1`; neither call changes the turn list.  Every state left by a
render that returned shows its cursor. -/
theorem navigate_round_trip (P : Platform) (v : Viewer)
    (hr : renderStep P v v.currentStep = .ok v) (hnav : updateNavState v = v) :
    (0 ≤ v.currentStep → v.currentStep < (v.steps.length : Int) - 1 →
      navigate P (-1) (navigate P 1 v).state = ⟨v, none⟩
      ∧ (navigate P 1 v).state.steps = v.steps
      ∧ (navigate P (-1) (navigate P 1 v).state).state.steps = v.steps)
    ∧ (0 < v.currentStep → v.currentStep ≤ (v.steps.length : Int) - 1 →
      navigate P 1 (navigate P (-1) v).state = ⟨v, none⟩
      ∧ (navigate P (-1) v).state.steps = v.steps
      ∧ (navigate P 1 (navigate P (-1) v).state).state.steps = v.steps) := by
  constructor
  · intro h0 h1
    have hf := navigate_frame P 1 v
    have hc : (navigate P 1 v).state.currentStep = v.currentStep + 1 := by
      rw [navigate_cursor, if_pos]
      omega
    have hback := navigate_to_shown P v (navigate P 1 v).state (-1) hf.1 hf.2.1 hf.2.2.1
      hf.2.2.2 (by rw [hc]; omega) h0 (by omega) hr hnav
    exact ⟨hback, hf.2.1, by rw [hback]⟩
  · intro h0 h1
    have hf := navigate_frame P (-1) v
    have hc : (navigate P (-1) v).state.currentStep = v.currentStep + -1 := by
      rw [navigate_cursor, if_pos]
      omega
    have hback := navigate_to_shown P v (navigate P (-1) v).state 1 hf.1 hf.2.1 hf.2.2.1
      hf.2.2.2 (by rw [hc]; omega) (by omega) (by omega) hr hnav
    exact ⟨hback, hf.2.1, by rw [hback]⟩

theorem navigate_round_trip_scenario :
    navigate examplePlatform (-1)
        (navigate examplePlatform 1
          (init examplePlatform (.body scenarioText) (Viewer.initial examplePage))).state
      = ⟨init examplePlatform (.body scenarioText) (Viewer.initial examplePage), none⟩ :=
  ((navigate_round_trip examplePlatform
    (init examplePlatform (.body scenarioText) (Viewer.initial examplePage)) rfl rfl).1
    (by decide) (by decide)).1

/-! ## Claim on navigation there and back -/

/-- C20 at the transcript of the user line `hi`, the line `{"type":"tool_use"}`
and the user line `bye`: `createCardHtml` throws on the event of the second
line, so the first turn is not rendered and `init` leaves the cursor at 0 of two
turns with the error message as content; `navigate(1)` followed by
`navigate(-1)` then ends with an exception, the cursor at 0, and the card of the
second turn as content: the state is not restored. -/
theorem round_trip_not_restored :
    createCardHtml toolUsePlatform bareToolUse = .error .typeError
    ∧ (init toolUsePlatform (.body toolUseText) (Viewer.initial examplePage)).currentStep = 0
    ∧ (init toolUsePlatform (.body toolUseText) (Viewer.initial examplePage)).steps.length = 2
    ∧ (navigate toolUsePlatform (-1)
        (navigate toolUsePlatform 1
          (init toolUsePlatform (.body toolUseText)
            (Viewer.initial examplePage))).state).thrown = some .typeError
    ∧ (navigate toolUsePlatform (-1)
        (navigate toolUsePlatform 1
          (init toolUsePlatform (.body toolUseText)
            (Viewer.initial examplePage))).state).state.currentStep = 0
    ∧ (navigate toolUsePlatform (-1)
        (navigate toolUsePlatform 1
          (init toolUsePlatform (.body toolUseText)
            (Viewer.initial examplePage))).state).state.dom.contentHtml
      ≠ (init toolUsePlatform (.body toolUseText)
          (Viewer.initial examplePage)).dom.contentHtml := by
  refine ⟨rfl, ?_, ?_, ?_, ?_, ?_⟩ <;> decide

end TranscriptViewer
